import Mathlib

set_option maxRecDepth 4096

/-!
Verification development for the `comp-gate` daemon (Rust).

This file shallowly embeds the parts of the source relevant to the frozen
claims: the whitelist byte serialization (`src/helper/whitelist.rs`), the
device-path transform and device forest operations
(`src/helper/device_managment.rs`), and the IPC framing and dispatch of the
core event loop (`src/bin/core.rs`).

Conventions of the embedding:
* Rust `HashMap<DeviceId, Device>` keyed children are modelled as
  `List Device`; in the source every insertion uses the device's own
  `device_id` as the key, so the key is recoverable from the element and is
  dropped.  Map lookup/removal act on the first element whose `device_id`
  matches; iteration order of a map is modelled as list order.
* Rust `String` / `&str` are Lean `String`; `str::as_bytes` is UTF-8
  encoding (`strBytes`), `str::from_utf8` a validating decoder
  (`utf8DecodeStr`), both implemented below; bytes are `Nat` values < 256.
* Fallible code returns `Option`/`Except`; a Rust panic (`unwrap` on `None`)
  is an explicit error value. OS calls (device toggling) are modelled by an
  explicit oracle argument.
-/

namespace CompGate

/-! ## UTF-8 encoding/decoding (model of `str::as_bytes` / `str::from_utf8`) -/

/-- UTF-8 encoding of a single Unicode code point, as byte values. -/
def utf8EncodeCharNat (n : Nat) : List Nat :=
  if n < 0x80 then [n]
  else if n < 0x800 then [0xC0 + n / 64, 0x80 + n % 64]
  else if n < 0x10000 then
    [0xE0 + n / 4096, 0x80 + n / 64 % 64, 0x80 + n % 64]
  else
    [0xF0 + n / 262144, 0x80 + n / 4096 % 64, 0x80 + n / 64 % 64, 0x80 + n % 64]

/-- The byte sequence of a Rust `String`/`&str` (`s.as_bytes()`). -/
def strBytes (s : String) : List Nat :=
  s.data.flatMap (fun c => utf8EncodeCharNat c.toNat)

/-- Continuation of `utf8DecodeOne` for a two-byte sequence. -/
def utf8Decode2 (b0 : Nat) : List Nat → Option (Nat × List Nat)
  | b1 :: rest1 =>
    if 0x80 ≤ b1 ∧ b1 < 0xC0 then some ((b0 - 0xC0) * 64 + (b1 - 0x80), rest1)
    else none
  | [] => none

/-- Continuation of `utf8DecodeOne` for a three-byte sequence. -/
def utf8Decode3 (b0 : Nat) : List Nat → Option (Nat × List Nat)
  | b1 :: b2 :: rest2 =>
    if (0x80 ≤ b1 ∧ b1 < 0xC0) ∧ (0x80 ≤ b2 ∧ b2 < 0xC0) ∧
        0x800 ≤ (b0 - 0xE0) * 4096 + (b1 - 0x80) * 64 + (b2 - 0x80) ∧
        ((b0 - 0xE0) * 4096 + (b1 - 0x80) * 64 + (b2 - 0x80) < 0xD800 ∨
          0xDFFF < (b0 - 0xE0) * 4096 + (b1 - 0x80) * 64 + (b2 - 0x80)) then
      some ((b0 - 0xE0) * 4096 + (b1 - 0x80) * 64 + (b2 - 0x80), rest2)
    else none
  | _ => none

/-- Continuation of `utf8DecodeOne` for a four-byte sequence. -/
def utf8Decode4 (b0 : Nat) : List Nat → Option (Nat × List Nat)
  | b1 :: b2 :: b3 :: rest3 =>
    if (0x80 ≤ b1 ∧ b1 < 0xC0) ∧ (0x80 ≤ b2 ∧ b2 < 0xC0) ∧ (0x80 ≤ b3 ∧ b3 < 0xC0) ∧
        0x10000 ≤ (b0 - 0xF0) * 262144 + (b1 - 0x80) * 4096 + (b2 - 0x80) * 64 + (b3 - 0x80) ∧
        (b0 - 0xF0) * 262144 + (b1 - 0x80) * 4096 + (b2 - 0x80) * 64 + (b3 - 0x80) < 0x110000 then
      some ((b0 - 0xF0) * 262144 + (b1 - 0x80) * 4096 + (b2 - 0x80) * 64 + (b3 - 0x80), rest3)
    else none
  | _ => none

/-- Decode one UTF-8 code point from the front of a byte list, returning the
code point and the remaining bytes.  Rejects overlong forms, surrogates and
values above `0x10FFFF`, as Rust's `str::from_utf8` does. -/
def utf8DecodeOne : List Nat → Option (Nat × List Nat)
  | [] => none
  | b0 :: rest =>
    if b0 < 0x80 then some (b0, rest)
    else if b0 < 0xC2 then none
    else if b0 < 0xE0 then utf8Decode2 b0 rest
    else if b0 < 0xF0 then utf8Decode3 b0 rest
    else if b0 < 0xF5 then utf8Decode4 b0 rest
    else none

theorem utf8DecodeOne_length {bytes : List Nat} {cp : Nat} {rest : List Nat}
    (h : utf8DecodeOne bytes = some (cp, rest)) : rest.length < bytes.length := by
  unfold utf8DecodeOne utf8Decode2 utf8Decode3 utf8Decode4 at h
  repeat' split at h
  all_goals simp at h
  all_goals obtain ⟨h1, h2⟩ := h
  all_goals subst h2
  all_goals simp only [List.length_cons]
  all_goals omega

/-- Validating UTF-8 decoder (model of the byte-level part of
`str::from_utf8`). -/
def utf8DecodeNats (bytes : List Nat) : Option (List Nat) :=
  match hb : bytes with
  | [] => some []
  | _ :: _ =>
    match h : utf8DecodeOne bytes with
    | none => none
    | some (cp, rem) => (utf8DecodeNats rem).map (fun l => cp :: l)
termination_by bytes.length
decreasing_by
  subst hb
  exact utf8DecodeOne_length h

/-- Model of Rust `str::from_utf8`, producing the decoded string. -/
def utf8DecodeStr (bytes : List Nat) : Option String :=
  (utf8DecodeNats bytes).map (fun cps => ⟨cps.map Char.ofNat⟩)


/-! ## Whitelist byte serialization (`src/helper/whitelist.rs`) -/

/-- Errors of whitelist decoding (the `anyhow!` messages of the source,
as a closed enumeration). -/
inductive WhitelistError : Type where
  | eofLength
  | eofString
  | invalidUtf8
  | invalidHexLength
  | invalidHexChar
deriving DecidableEq

/-- `u64::to_le_bytes` applied to a record length (`b.len() as u64`; the
`usize → u64` cast is lossless on the 64-bit target). -/
def u64ToLeBytes (n : Nat) : List Nat :=
  [n % 256, n / 256 % 256, n / 256 ^ 2 % 256, n / 256 ^ 3 % 256,
   n / 256 ^ 4 % 256, n / 256 ^ 5 % 256, n / 256 ^ 6 % 256, n / 256 ^ 7 % 256]

/-- `u64::from_le_bytes` on the 8 length bytes read by
`deserialize_set_bytes`. -/
def u64FromLeBytes (bs : List Nat) : Nat :=
  match bs with
  | [b0, b1, b2, b3, b4, b5, b6, b7] =>
    b0 + b1 * 256 + b2 * 256 ^ 2 + b3 * 256 ^ 3 + b4 * 256 ^ 4 + b5 * 256 ^ 5 +
      b6 * 256 ^ 6 + b7 * 256 ^ 7
  | _ => 0

/-- `serialize_set_bytes`: each element of the set as
`[u64 len LE][UTF-8 bytes]`, concatenated.  The `HashSet` is modelled as the
list of its elements in iteration order. -/
def serialize_set_bytes (set : List String) : List Nat :=
  set.foldl (fun out s => out ++ (u64ToLeBytes (strBytes s).length ++ strBytes s)) []

/-- `deserialize_set_bytes`: the index-based `while i < bytes.len()` loop of
the source, as recursion on the remaining bytes.  The `HashSet` under
construction is modelled as the list of inserted elements (read up to
order/duplication, i.e. membership). -/
def deserialize_set_bytes (bytes : List Nat) : Except WhitelistError (List String) :=
  match hb : bytes with
  | [] => .ok []
  | _ :: _ =>
    if h8 : bytes.length < 8 then .error .eofLength
    else
      let len := u64FromLeBytes (bytes.take 8)
      let rest := bytes.drop 8
      if hlen : rest.length < len then .error .eofString
      else
        match utf8DecodeStr (rest.take len) with
        | none => .error .invalidUtf8
        | some s => (deserialize_set_bytes (rest.drop len)).map (fun out => s :: out)
termination_by bytes.length
decreasing_by
  subst hb
  simp only [List.length_drop]
  simp only [List.length_cons] at h8 ⊢
  omega

/-! ## Hex encoding of the persisted blob (`encode_hex` / `decode_hex`) -/

/-- One nibble of `encode_hex`'s `HEX` table (`b"0123456789abcdef"`), as the
byte value of the hex character. -/
def hexDigitByte (n : Nat) : Nat :=
  if n < 10 then 48 + n else 87 + n

/-- `encode_hex`: two lowercase hex characters per byte, as the byte values
of the produced string (all ASCII). -/
def encode_hex (bytes : List Nat) : List Nat :=
  bytes.flatMap (fun b => [hexDigitByte (b / 16), hexDigitByte (b % 16)])

/-- `hex_val` on one character byte. -/
def hex_val (c : Nat) : Except WhitelistError Nat :=
  if 48 ≤ c ∧ c ≤ 57 then .ok (c - 48)
  else if 97 ≤ c ∧ c ≤ 102 then .ok (10 + (c - 97))
  else if 65 ≤ c ∧ c ≤ 70 then .ok (10 + (c - 65))
  else .error .invalidHexChar

/-- The pair-at-a-time loop of `decode_hex` (the single-character case is
unreachable behind the even-length check). -/
def decodeHexLoop : List Nat → Except WhitelistError (List Nat)
  | [] => .ok []
  | [_] => .error .invalidHexLength
  | c1 :: c2 :: rest =>
    match hex_val c1 with
    | .error e => .error e
    | .ok hi =>
      match hex_val c2 with
      | .error e => .error e
      | .ok lo => (decodeHexLoop rest).map (fun out => (hi * 16 + lo) :: out)

/-- `decode_hex`: reject odd lengths, then decode byte pairs. -/
def decode_hex (s : List Nat) : Except WhitelistError (List Nat) :=
  if s.length % 2 ≠ 0 then .error .invalidHexLength
  else decodeHexLoop s

/-! ## Hotplug raw path → DeviceId (`device_path_to_device_id`) -/

/-- `device_path.strip_prefix(r"\\?\").unwrap_or(device_path)`. -/
def stripPathMarker : List Char → List Char
  | '\\' :: '\\' :: '?' :: '\\' :: rest => rest
  | cs => cs

/-- `path.rfind('#')` and truncation to `&path[..pos]`: drop the last `#`
and everything after it; a path without `#` is kept whole. -/
def dropFromLastHash (cs : List Char) : List Char :=
  match cs.reverse.dropWhile (fun c => c ≠ '#') with
  | [] => cs
  | _ :: before => before.reverse

/-- `device_path_to_device_id`: strip the `\\?\` marker, drop the GUID
suffix after the last `#`, replace `#` by `\`, upper-case
(`to_uppercase` restricted to its ASCII action, which is all the device
paths contain). -/
def device_path_to_device_id (device_path : String) : String :=
  let path := stripPathMarker device_path.data
  let path := dropFromLastHash path
  let instance_id := path.map (fun c => if c = '#' then '\\' else c)
  ⟨instance_id.map Char.toUpper⟩

/-! ## Device forest model (`src/helper/device_managment.rs`) -/

/-- `ConfigManagerError` (src/error.rs). -/
inductive ConfigManagerError : Type where
  | Success
  | InvalidDeviceInstance
  | UnknownError (code : Nat)
deriving DecidableEq

/-- `Win32Error` (src/error.rs): the closed set of named OS error kinds. -/
inductive Win32Error : Type where
  | Success
  | FileNotFound
  | PathNotFound
  | AccessDenied
  | InvalidHandle
  | NotEnoughMemory
  | InvalidParameter
  | InsufficientBuffer
  | MoreData
  | IoPending
  | OperationAborted
  | SharingViolation
  | DiskFull
  | Timeout
  | NoMoreItems
  | InvalidData
  | NotFound
  | AlreadyExists
  | DeviceNotExist
  | ConfigManagerError (e : ConfigManagerError)
  | UnknownError (code : Nat)
deriving DecidableEq

/-- `DeviceInsertionError` (src/error.rs). -/
inductive DeviceInsertionError : Type where
  | Win32Error (e : Win32Error)
  | DeviceFilteredNotUsb
deriving DecidableEq

/-- `DeviceState` (src/helper/device_managment.rs). -/
inductive DeviceState : Type where
  | Enable
  | Disable
deriving DecidableEq

/-- A `Device` node of the topology: canonical id, declared parent id,
depth, children (`HashMap<DeviceId, Device>` modelled as a list, see the
file header) and the five optional descriptive attributes.  The opaque
`devinst` OS handle is not part of identity or of any claim and is not
carried. -/
inductive Device : Type where
  | mk (device_id : String) (parent_id : Option String) (tree_level : Nat)
      (devices : List Device)
      (device_service device_class device_friendly_name device_type device_description :
        Option String)

def Device.device_id : Device → String
  | .mk i _ _ _ _ _ _ _ _ => i

def Device.parent_id : Device → Option String
  | .mk _ p _ _ _ _ _ _ _ => p

def Device.tree_level : Device → Nat
  | .mk _ _ l _ _ _ _ _ _ => l

def Device.devices : Device → List Device
  | .mk _ _ _ ds _ _ _ _ _ => ds

def Device.device_service : Device → Option String
  | .mk _ _ _ _ s _ _ _ _ => s

def Device.device_class : Device → Option String
  | .mk _ _ _ _ _ c _ _ _ => c

def Device.device_friendly_name : Device → Option String
  | .mk _ _ _ _ _ _ f _ _ => f

def Device.device_type : Device → Option String
  | .mk _ _ _ _ _ _ _ t _ => t

def Device.device_description : Device → Option String
  | .mk _ _ _ _ _ _ _ _ d => d

/-- `device.tree_level = l` (field assignment through `&mut`). -/
def Device.withTreeLevel (l : Nat) : Device → Device
  | .mk i p _ ds s c f t de => .mk i p l ds s c f t de

/-- `device.devices = ds` (field assignment through `&mut`). -/
def Device.withDevices (ds : List Device) : Device → Device
  | .mk i p l _ s c f t de => .mk i p l ds s c f t de

theorem Device.sizeOf_devices (d : Device) : sizeOf d.devices < sizeOf d := by
  cases d
  simp [Device.devices]
  omega

/-- `HashMap::get` on a children map (key = the device's own id). -/
def getKeyed (id : String) (ds : List Device) : Option Device :=
  ds.find? (fun d => d.device_id == id)

/-- `HashMap::contains_key`. -/
def containsKey (id : String) (ds : List Device) : Bool :=
  ds.any (fun d => d.device_id == id)

/-- `HashMap::insert`: replace the entry with the same key, else add. -/
def insertKeyed (d : Device) : List Device → List Device
  | [] => [d]
  | x :: xs => if x.device_id = d.device_id then d :: xs else x :: insertKeyed d xs

/-- `HashMap::remove`: take out the entry with the given key. -/
def removeKeyed (id : String) : List Device → Option (Device × List Device)
  | [] => none
  | x :: xs =>
    if x.device_id = id then some (x, xs)
    else (removeKeyed id xs).map (fun pr => (pr.1, x :: pr.2))

/-- Modify the entry with the given key in place (`get_mut` + mutation). -/
def updateFirst (id : String) (g : Device → Device) : List Device → List Device
  | [] => []
  | d :: ds => if d.device_id = id then g d :: ds else d :: updateFirst id g ds

/-- The mutation done on a found parent in the parent search and in orphan
re-parenting: `child.tree_level = parent.tree_level + 1;
parent.devices.insert(child.device_id, child)`. -/
def attachChild (child parent : Device) : Device :=
  parent.withDevices
    (insertKeyed (child.withTreeLevel (parent.tree_level + 1)) parent.devices)

mutual
/-- All `(device_id, device_service)` pairs in a subtree, depth-first.
This is the projection many claims are phrased over: moving a node around
the forest changes neither component. -/
def deviceEntries : Device → List (String × Option String)
  | .mk i _ _ ds s _ _ _ _ => (i, s) :: forestEntries ds
/-- All `(device_id, device_service)` pairs in a forest, depth-first. -/
def forestEntries : List Device → List (String × Option String)
  | [] => []
  | d :: ds => deviceEntries d ++ forestEntries ds
end

/-- All device ids of a subtree, in depth-first order. -/
def deviceIds (d : Device) : List String := (deviceEntries d).map Prod.fst

/-- All device ids of a forest, in depth-first order. -/
def forestIds (f : List Device) : List String := (forestEntries f).map Prod.fst

mutual
/-- All nodes of a subtree (each with its own subtree still attached). -/
def deviceNodes : Device → List Device
  | d@(.mk _ _ _ ds _ _ _ _ _) => d :: forestNodes ds
/-- All nodes of a forest (each with its subtree still attached). -/
def forestNodes : List Device → List Device
  | [] => []
  | d :: ds => deviceNodes d ++ forestNodes ds
end

mutual
/-- `find_device_in_tree` (inside `set_device_state`): current level first,
then each child subtree in order. -/
def find_device_in_tree (devices : List Device) (target_id : String) : Option Device :=
  match getKeyed target_id devices with
  | some d => some d
  | none => findDeviceLoop devices target_id
termination_by (sizeOf devices, 1)
decreasing_by
  all_goals simp_wf
  all_goals omega

/-- The `for device in devices.values()` loop of `find_device_in_tree`. -/
def findDeviceLoop : List Device → String → Option Device
  | [], _ => none
  | d :: ds, t =>
    match find_device_in_tree d.devices t with
    | some f => some f
    | none => findDeviceLoop ds t
termination_by ds _ => (sizeOf ds, 0)
decreasing_by
  all_goals simp_wf
  all_goals try omega
  all_goals (have h := Device.sizeOf_devices d; omega)
end

mutual
/-- `find_parent_mut` (in `insert_deivice_into_tree`) / `find_device_mut`
(in `merge_device_trees`) fused with the mutation done through the returned
`&mut Device`: find the parent anywhere (current level first), then set the
child's `tree_level` to `parent.tree_level + 1` and insert it into the
parent's children map.  `none` means no parent was found. -/
def find_parent_insert (devices : List Device) (target_parent_id : String) (child : Device) :
    Option (List Device) :=
  if containsKey target_parent_id devices then
    some (updateFirst target_parent_id (attachChild child) devices)
  else findParentLoop devices target_parent_id child
termination_by (sizeOf devices, 1)
decreasing_by
  all_goals simp_wf
  all_goals omega

/-- The `for dev in devices.values_mut()` loop of the parent search. -/
def findParentLoop : List Device → String → Device → Option (List Device)
  | [], _, _ => none
  | d :: ds, t, c =>
    match find_parent_insert d.devices t c with
    | some newChildren => some (d.withDevices newChildren :: ds)
    | none => (findParentLoop ds t c).map (fun rest => d :: rest)
termination_by ds _ _ => (sizeOf ds, 0)
decreasing_by
  all_goals simp_wf
  all_goals try omega
  all_goals (have h := Device.sizeOf_devices d; omega)
end

/-- One turn of the orphan re-parenting loop shared by
`insert_deivice_into_tree` and `merge_device_trees`: remove the orphan from
the root map, then (when the new parent is still present at root level)
set its level to `parent.tree_level + 1` and insert it under the parent.
When `get_mut` fails after the removal, the orphan is dropped (the source's
`if let` silently ends). -/
def reparentOrphan (t : List Device) (new_device_id orphan_id : String) : List Device :=
  match removeKeyed orphan_id t with
  | none => t
  | some (orphan, t1) =>
    if containsKey new_device_id t1 then
      updateFirst new_device_id (attachChild orphan) t1
    else t1

/-- `DeviceTracker::insert_deivice_into_tree`. -/
def insert_deivice_into_tree (tracker : List Device) (new_device : Device) : List Device :=
  let new_device_id := new_device.device_id
  let attached : Option (List Device) :=
    match new_device.parent_id with
    | some parent_id => find_parent_insert tracker parent_id new_device
    | none => none
  match attached with
  | some t => t
  | none =>
    let t1 := insertKeyed new_device tracker
    let orphan_ids := (t1.filter (fun dev => dev.parent_id == some new_device_id)).map
      Device.device_id
    orphan_ids.foldl (fun t orphan_id => reparentOrphan t new_device_id orphan_id) t1

/-- The hub test of `device_filter_function` on a service-name value. -/
def serviceIsHub : Option String → Bool
  | some service => service == "usbhub3" || service == "usbhub"
  | none => false

/-- `device_filter_function`: hubs are recognised by their (lower-cased)
service name. -/
def device_filter_function (device : Device) : Bool :=
  serviceIsHub device.device_service

/-- All `(id, service)` entries of the forest satisfy `P`. -/
def AllEntries (P : String × Option String → Prop) (f : List Device) : Prop :=
  ∀ e ∈ forestEntries f, P e

/-- No device anywhere in the forest has a hub service name. -/
def NoHub (f : List Device) : Prop :=
  AllEntries (fun e => serviceIsHub e.2 = false) f

/-- `DeviceTracker::insert_device_by_id`.  The OS side
(`DeviceInstance::try_from` + `Device::try_from`, which re-queries all
properties from the raw id) is an oracle input: either the constructed
device or the OS error. -/
def insert_device_by_id (tracker : List Device) (os_result : Except Win32Error Device) :
    Except DeviceInsertionError (List Device) :=
  match os_result with
  | .error e => .error (.Win32Error e)
  | .ok new_device =>
    if device_filter_function new_device then .error .DeviceFilteredNotUsb
    else .ok (insert_deivice_into_tree tracker new_device)

mutual
/-- `find_and_remove_device` (inside `remove_device_by_id`): remove at the
current level if the key is present, else recurse into each child subtree in
order.  Returns the removed subtree and the remaining forest. -/
def find_and_remove_device (devices : List Device) (device_id : String) :
    Option (Device × List Device) :=
  if containsKey device_id devices then removeKeyed device_id devices
  else removeLoop devices device_id
termination_by (sizeOf devices, 1)
decreasing_by
  all_goals simp_wf
  all_goals omega

/-- The `for d in devices.values_mut()` loop of the removal search. -/
def removeLoop : List Device → String → Option (Device × List Device)
  | [], _ => none
  | d :: ds, t =>
    match find_and_remove_device d.devices t with
    | some pr => some (pr.1, d.withDevices pr.2 :: ds)
    | none => (removeLoop ds t).map (fun pr => (pr.1, d :: pr.2))
termination_by ds _ => (sizeOf ds, 0)
decreasing_by
  all_goals simp_wf
  all_goals try omega
  all_goals (have h := Device.sizeOf_devices d; omega)
end

/-- `DeviceTracker::remove_device_by_id`. -/
def remove_device_by_id (tracker : List Device) (device_id : String) :
    Option (Device × List Device) :=
  find_and_remove_device tracker device_id

/-- The OS device-toggle capability (`CM_Enable_DevNode` /
`CM_Disable_DevNode`), keyed by the device's id. -/
def StateOracle : Type := String → DeviceState → Except Win32Error Unit

/-- `Device::change_state`. -/
def change_state (oracle : StateOracle) (d : Device) (new_state : DeviceState) :
    Except Win32Error Unit :=
  oracle d.device_id new_state

/-- `DeviceTracker::set_device_state`: search the whole forest, then defer
to `change_state`; `ERROR_DEV_NOT_EXIST` when the id is absent. -/
def set_device_state (oracle : StateOracle) (tracker : List Device) (device_id : String)
    (state : DeviceState) : Except Win32Error Unit :=
  match find_device_in_tree tracker device_id with
  | some device => change_state oracle device state
  | none => .error .DeviceNotExist

theorem sum_sizeOf_lt (ds : List Device) : (ds.map sizeOf).sum < sizeOf ds := by
  induction ds with
  | nil => simp
  | cons d tl ih =>
    simp only [List.map_cons, List.sum_cons]
    have hsz : sizeOf (d :: tl) = 1 + sizeOf d + sizeOf tl := by simp
    omega

theorem drain_measure (d : Device) (rest : List Device) :
    ((d.devices.reverse ++ rest).map sizeOf).sum < ((d :: rest).map sizeOf).sum := by
  simp only [List.map_append, List.map_reverse, List.sum_append, List.sum_reverse,
    List.map_cons, List.sum_cons]
  have h1 := sum_sizeOf_lt d.devices
  have h2 := Device.sizeOf_devices d
  omega

/-- The drain order of `DeviceIterator`: `stack.pop()` takes the most
recently pushed device and pushes its children in map order.  The stack is
modelled with its top at the head, so pushing a list appends its reverse. -/
def drainStack : List Device → List Device
  | [] => []
  | d :: rest => d :: drainStack (d.devices.reverse ++ rest)
termination_by stack => (stack.map sizeOf).sum
decreasing_by
  exact drain_measure _ _

/-- `DeviceTracker::iter()`: the devices in the order produced by
`DeviceIterator` (initial stack = the root map's values in map order,
popped from the back). -/
def iterTracker (tracker : List Device) : List Device :=
  drainStack tracker.reverse

/-! ## Whitelist engine (`src/helper/whitelist.rs`) -/

/-- `Whitelist::store_whitelist`: serialize, hex-encode, write the blob
(`set_password` overwrites whatever was stored). -/
def store_whitelist (set : List String) : List Nat :=
  encode_hex (serialize_set_bytes set)

/-- `Whitelist::load_whitelist`: read the blob, hex-decode, deserialize
(each `?` is an early error return). -/
def load_whitelist (blob : List Nat) : Except WhitelistError (List String) :=
  match decode_hex blob with
  | .error e => .error e
  | .ok bytes => deserialize_set_bytes bytes

/-- `Whitelist::new`: collect the ids of the tracker's root-level map
entries and store them, regardless of the previously persisted blob. -/
def whitelist_new_blob (tracker : List Device) (_prev_blob : Option (List Nat)) : List Nat :=
  store_whitelist (tracker.map Device.device_id)

/-- One `for d in self.device_tracker.iter()` body of
`Whitelist::apply_whitelist`, over the remaining iteration order.  The
first component is exactly the source's `Result` (the `?` aborts the
loop); the second instruments the sequence of `change_state` OS calls
actually issued. -/
def applyLoop (oracle : StateOracle) (tracker : List Device) (wl : List String) :
    List Device → Except Win32Error Unit × List (String × DeviceState)
  | [] => (.ok (), [])
  | d :: rest =>
    let st := if wl.contains d.device_id then DeviceState.Enable else DeviceState.Disable
    match find_device_in_tree tracker d.device_id with
    | none => (.error .DeviceNotExist, [])
    | some dev =>
      match oracle dev.device_id st with
      | .error e => (.error e, [(dev.device_id, st)])
      | .ok _ =>
        let r := applyLoop oracle tracker wl rest
        (r.1, (dev.device_id, st) :: r.2)

/-- `Whitelist::apply_whitelist` (with the whitelist set already loaded):
toggle every iterated device, aborting on the first failure. -/
def apply_whitelist (oracle : StateOracle) (tracker : List Device) (wl : List String) :
    Except Win32Error Unit × List (String × DeviceState) :=
  applyLoop oracle tracker wl (iterTracker tracker)

/-! ## Flat-map → forest conversion and merge (`convert_devices_into_tree`,
`place_child_in_parent`, `merge_device_trees`, `load`) -/

/-- A Rust panic inside `place_child_in_parent` (`.unwrap()` on `None`), or
exhaustion of the fuel that makes the embedded recursion total. -/
inductive PlacePanic : Type where
  | unwrapNone
  | outOfFuel
deriving DecidableEq

mutual
/-- `place_child_in_parent`: after (recursively) placing every pending
child of `child_id`, move `child_id` from the top-level map into
`parent_id`'s children at `level + 1`.  The two `.unwrap()`s of the source
are explicit panic values. -/
def place_child_in_parent (fuel : Nat) (parent_id child_id : String)
    (devices : List Device) (device_ids : List String)
    (parent_ids : List (String × String)) (level : Nat) :
    Except PlacePanic (List Device) :=
  match fuel with
  | 0 => .error .outOfFuel
  | fuel + 1 =>
    if device_ids.contains parent_id then
      match placeWhile fuel child_id devices device_ids parent_ids level with
      | .error e => .error e
      | .ok devices1 =>
        match removeKeyed child_id devices1 with
        | none => .error .unwrapNone
        | some (child_device, devices2) =>
          if containsKey parent_id devices2 then
            .ok (updateFirst parent_id (fun parent =>
              parent.withDevices
                (insertKeyed (child_device.withTreeLevel (level + 1)) parent.devices)) devices2)
          else .error .unwrapNone
    else .ok devices

/-- The `while let Some((pid, cid)) = parent_ids.iter().find(|(p, _)| p ==
child_id)` loop: `parent_ids` is never mutated, so the same pair is found
on every iteration until the body panics. -/
def placeWhile (fuel : Nat) (child_id : String) (devices : List Device)
    (device_ids : List String) (parent_ids : List (String × String)) (level : Nat) :
    Except PlacePanic (List Device) :=
  match fuel with
  | 0 => .error .outOfFuel
  | fuel + 1 =>
    match parent_ids.find? (fun pc => pc.1 == child_id) with
    | none => .ok devices
    | some (pid, cid) =>
      match place_child_in_parent fuel pid cid devices device_ids parent_ids (level + 1) with
      | .error e => .error e
      | .ok devices1 => placeWhile fuel child_id devices1 device_ids parent_ids level
end

/-- `convert_devices_into_tree`: compute the id and parent→child edge
lists, then run `place_child_in_parent` for every edge. -/
def convert_devices_into_tree (fuel : Nat) (devices : List Device) :
    Except PlacePanic (List Device) :=
  let device_ids := devices.map Device.device_id
  let parent_ids := devices.filterMap
    (fun d => d.parent_id.map (fun pid => (pid, d.device_id)))
  parent_ids.foldlM
    (fun devs pc => place_child_in_parent fuel pc.1 pc.2 devs device_ids parent_ids 0)
    devices

theorem sizeOf_devices_cons (d : Device) (rest : List Device) :
    sizeOf d.devices < sizeOf (d :: rest) := by
  have h := Device.sizeOf_devices d
  simp only [List.cons.sizeOf_spec]
  omega

theorem sizeOf_tail_cons (d : Device) (rest : List Device) :
    sizeOf rest < sizeOf (d :: rest) := by
  simp only [List.cons.sizeOf_spec]
  have h : 0 < sizeOf d := by cases d <;> simp <;> omega
  omega

/-- `collect_devices` (inside `merge_device_trees`): flatten the tree to
merge, taking each node's children out before pushing it. -/
def collect_devices : List Device → List Device
  | [] => []
  | d :: rest => d.withDevices [] :: (collect_devices d.devices ++ collect_devices rest)
termination_by ds => sizeOf ds
decreasing_by
  · exact sizeOf_devices_cons _ _
  · exact sizeOf_tail_cons _ _

/-- The per-device body of `merge_device_trees`'s insertion loop: attach
under the parent when it is found anywhere in the base tree, else insert at
root level (level 0) and re-parent the matching orphan roots (excluding the
device itself). -/
def mergeInsertOne (base_tree : List Device) (device : Device) : List Device :=
  let device_id := device.device_id
  let attached : Option (List Device) :=
    match device.parent_id with
    | some parent_id => find_parent_insert base_tree parent_id device
    | none => none
  match attached with
  | some t => t
  | none =>
    let device1 := device.withTreeLevel 0
    let b1 := insertKeyed device1 base_tree
    let orphan_ids := (b1.filter (fun dev =>
      dev.device_id ≠ device_id && dev.parent_id == some device_id)).map Device.device_id
    orphan_ids.foldl (fun b oid => reparentOrphan b device_id oid) b1

/-- `DeviceTracker::merge_device_trees`. -/
def merge_device_trees (base_tree : List Device) (tree_to_merge : List Device) : List Device :=
  (collect_devices tree_to_merge).foldl mergeInsertOne base_tree

/-- `DeviceTracker::get_listed_devices`: enumerate (the `enumerated` list
is the OS oracle, in enumeration order), drop hub devices, build the flat
map, convert to a forest. -/
def get_listed_devices (fuel : Nat) (enumerated : List Device) :
    Except PlacePanic (List Device) :=
  let flat := enumerated.foldl
    (fun m d => if device_filter_function d then m else insertKeyed d m) []
  convert_devices_into_tree fuel flat

/-- `DeviceTracker::merge_device_information_sets` /
`DeviceTracker::load`: convert each class's enumeration and merge them in
order into one forest. -/
def load_tracker (fuel : Nat) (class_enumerations : List (List Device)) :
    Except PlacePanic (List Device) :=
  class_enumerations.foldlM
    (fun merged s => (get_listed_devices fuel s).map (merge_device_trees merged)) []

/-! ## IPC protocol and event loop dispatch (`src/helper/ioapi.rs`,
`src/bin/core.rs`) -/

/-- `IoApiCommand` (src/helper/ioapi.rs). -/
inductive IoApiCommand : Type where
  | GetDeviceList
  | DisableDevice (id : String)
  | EnableDevice (id : String)
  | GetDeviceConnectionLogs
deriving DecidableEq

/-- `IoApiCommand::try_from((u8, Vec<Rc<str>>))`.  The source indexes
`args[0]`; both call sites pass the result of `split(" ")`, which always
yields at least one token, so the empty-argument arm (where the source
would panic) is modelled as a parse failure and is provably unreachable. -/
def ioApiCommand_try_from (code : Nat) (args : List String) : Option IoApiCommand :=
  match code with
  | 2 => some .GetDeviceList
  | 3 =>
    match args with
    | a :: _ => some (.DisableDevice a)
    | [] => none
  | 4 =>
    match args with
    | a :: _ => some (.EnableDevice a)
    | [] => none
  | 5 => some .GetDeviceConnectionLogs
  | _ => none

/-- Code points of `String::from_utf8_lossy`: invalid bytes become U+FFFD.
(Rust coalesces a maximal invalid subsequence into one replacement
character; this byte-at-a-time variant agrees with it on valid input,
which is all the claims exercise.) -/
def utf8DecodeLossyNats (bytes : List Nat) : List Nat :=
  match hb : bytes with
  | [] => []
  | b :: rest =>
    match h : utf8DecodeOne bytes with
    | some (cp, rem) => cp :: utf8DecodeLossyNats rem
    | none => 0xFFFD :: utf8DecodeLossyNats rest
termination_by bytes.length
decreasing_by
  · subst hb
    exact utf8DecodeOne_length h
  · subst hb
    simp only [List.length_cons]
    omega

/-- `String::from_utf8_lossy`. -/
def from_utf8_lossy (bytes : List Nat) : String :=
  ⟨(utf8DecodeLossyNats bytes).map Char.ofNat⟩

/-- `read_exact(n)` on a connection's pending bytes: succeeds only when
`n` bytes are available.  (On failure the Rust stream is left in an
unspecified partially-consumed state; the claims only exercise complete
frames, and the model then leaves the stream untouched.) -/
def read_exact (n : Nat) (stream : List Nat) : Option (List Nat × List Nat) :=
  if n ≤ stream.length then some (stream.take n, stream.drop n) else none

/-- The body-parsing part of `parse_cmd_message` after `read_exact`
succeeded: opcode is the first byte, the rest is lossily decoded and split
on spaces. -/
def parse_body (message_buf : List Nat) : Option IoApiCommand :=
  if 1 ≤ message_buf.length then
    ioApiCommand_try_from (message_buf.headD 0)
      ((from_utf8_lossy message_buf.tail).splitOn " ")
  else none

/-- `parse_cmd_message`: read `message_length` bytes, then parse them. -/
def parse_cmd_message (stream : List Nat) (message_length : Nat) :
    Option IoApiCommand × List Nat :=
  match read_exact message_length stream with
  | some (message_buf, rest) => (parse_body message_buf, rest)
  | none => (none, stream)

/-- `(n as u32).to_be_bytes()` (the `usize → u32` cast truncates). -/
def u32BeBytes (n : Nat) : List Nat :=
  let m := n % 2 ^ 32
  [m / 256 ^ 3 % 256, m / 256 ^ 2 % 256, m / 256 % 256, m % 256]

/-- `u32::from_be_bytes` on the 4 length-prefix bytes. -/
def u32FromBeBytes (bs : List Nat) : Nat :=
  match bs with
  | [b0, b1, b2, b3] => ((b0 * 256 + b1) * 256 + b2) * 256 + b3
  | _ => 0

/-- `convert_bytes_to_payload`: `[4-byte big-endian length][payload]`. -/
def convert_bytes_to_payload (bytes : List Nat) : List Nat :=
  u32BeBytes bytes.length ++ bytes

/-- The serialized request of `IoApiRequest::from(IoApiCommand)`:
`[4-byte big-endian length][opcode][argument bytes]`. -/
def ioApiRequestBytes (cmd : IoApiCommand) : List Nat :=
  let result_bytes : List Nat :=
    match cmd with
    | .GetDeviceList => [2]
    | .GetDeviceConnectionLogs => [5]
    | .DisableDevice id => 3 :: strBytes id
    | .EnableDevice id => 4 :: strBytes id
  u32BeBytes result_bytes.length ++ result_bytes

/-- `"\t".repeat(n)`. -/
def tabRepeat (n : Nat) : String :=
  ⟨List.replicate n '\t'⟩

mutual
/-- The `Display` impl of `Device`: six `writeln!` lines indented by
`tree_level` tabs, then each sub-device prefixed by a `Sub-device:` line
(indented one deeper) and followed by the extra newline of
`writeln!(f, "{}", sub_device)`. -/
def deviceDisplay : Device → String
  | .mk id _ lvl ds svc cls fr ty desc =>
    tabRepeat lvl ++ "Device ID: " ++ id ++ "\n" ++
    tabRepeat lvl ++ " - Device Service: " ++ svc.getD "None" ++ "\n" ++
    tabRepeat lvl ++ " - Device Class: " ++ cls.getD "None" ++ "\n" ++
    tabRepeat lvl ++ " - Device Friendly Name: " ++ fr.getD "None" ++ "\n" ++
    tabRepeat lvl ++ " - Device Type: " ++ ty.getD "None" ++ "\n" ++
    tabRepeat lvl ++ " - Device Description: " ++ desc.getD "None" ++ "\n" ++
    subDevicesDisplay (lvl + 1) ds
/-- The sub-device loop of `Device`'s `Display` impl. -/
def subDevicesDisplay : Nat → List Device → String
  | _, [] => ""
  | deeper, d :: ds =>
    tabRepeat deeper ++ "Sub-device:" ++ "\n" ++ (deviceDisplay d ++ "\n") ++
    subDevicesDisplay deeper ds
end

/-- The `Display` impl of `DeviceTracker`: `writeln!(f, "{}", device)` per
root-map entry. -/
def deviceTrackerDisplay : List Device → String
  | [] => ""
  | d :: ds => (deviceDisplay d ++ "\n") ++ deviceTrackerDisplay ds

/-- The `thiserror` message of `ConfigManagerError` (src/error.rs). -/
def configManagerErrorMessage : ConfigManagerError → String
  | .Success => "Config manager success"
  | .InvalidDeviceInstance => "Config manager instance device instance"
  | .UnknownError code => "Config manager error " ++ toString code

/-- The `thiserror` message of `Win32Error` (src/error.rs). -/
def win32ErrorMessage : Win32Error → String
  | .Success => "The operation completed successfully"
  | .FileNotFound => "File not found"
  | .PathNotFound => "Path not found"
  | .AccessDenied => "Access denied"
  | .InvalidHandle => "Invalid handle"
  | .NotEnoughMemory => "Not enough memory"
  | .InvalidParameter => "Invalid parameter"
  | .InsufficientBuffer => "Insufficient buffer"
  | .MoreData => "More data available"
  | .IoPending => "I/O pending"
  | .OperationAborted => "Operation aborted"
  | .SharingViolation => "Sharing violation"
  | .DiskFull => "Disk full"
  | .Timeout => "Timeout"
  | .NoMoreItems => "No more items"
  | .InvalidData => "Invalid data"
  | .NotFound => "Not found"
  | .AlreadyExists => "Already exists"
  | .DeviceNotExist => "Device does not exist"
  | .ConfigManagerError _ => "Config manager error"
  | .UnknownError code => "Unknown error with code: " ++ toString code

/-- The command dispatch of the event loop (src/bin/core.rs, lines
106–167): the exact bytes written back on the connection for each parsed
command.  `GetDeviceConnectionLogs` starts its payload with the 1024 zero
bytes of `vec![0u8; 1024]`; `EnableDevice`/`DisableDevice` wrap the
already-wrapped `payload` in `convert_bytes_to_payload` a second time. -/
def dispatchResponse (oracle : StateOracle) (tracker : List Device) (logs : List String) :
    IoApiCommand → List Nat
  | .GetDeviceList =>
    convert_bytes_to_payload (strBytes (deviceTrackerDisplay tracker))
  | .GetDeviceConnectionLogs =>
    let core_payload := List.replicate 1024 0 ++
      logs.flatMap (fun log => strBytes log ++ [10])
    convert_bytes_to_payload core_payload
  | .EnableDevice device_id =>
    let payload :=
      match set_device_state oracle tracker device_id .Enable with
      | .error e =>
        convert_bytes_to_payload (strBytes ("Enabling device failed: " ++ win32ErrorMessage e))
      | .ok _ => convert_bytes_to_payload (strBytes "Device enabled.")
    convert_bytes_to_payload payload
  | .DisableDevice device_id =>
    let payload :=
      match set_device_state oracle tracker device_id .Disable with
      | .error e =>
        convert_bytes_to_payload (strBytes ("Disabling device failed: " ++ win32ErrorMessage e))
      | .ok _ => convert_bytes_to_payload (strBytes "Device disabled.")
    convert_bytes_to_payload payload

/-- Result of one event-loop iteration's work on one connection. -/
structure ConnStep : Type where
  response : Option (List Nat)
  closed : Bool
  rest : List Nat
deriving DecidableEq

/-- One iteration of the event loop's per-connection handling (src/bin/core.rs,
lines 88–174): read the 4-byte length prefix (too few pending bytes is a
`WouldBlock`, the `_ => {}` arm), read and parse the body
(`parse_cmd_message`; `None` hits the `continue` arm: no response, the
connection is not marked for closure), else dispatch and write the
response.  The only closing arm — a read error other than `WouldBlock` —
cannot arise from pending bytes and is never taken in this byte model. -/
def connectionStep (oracle : StateOracle) (tracker : List Device) (logs : List String)
    (stream : List Nat) : ConnStep :=
  match read_exact 4 stream with
  | none => ⟨none, false, stream⟩
  | some (length_buf, rest1) =>
    let message_length := u32FromBeBytes length_buf
    match parse_cmd_message rest1 message_length with
    | (none, rest2) => ⟨none, false, rest2⟩
    | (some cmd, rest2) => ⟨some (dispatchResponse oracle tracker logs cmd), false, rest2⟩

/-! ## Operation sequences and invariant checkers -/

/-- A runtime mutation of the tracker (hotplug insert / remove). -/
inductive TrackerOp : Type where
  | insert (d : Device)
  | remove (id : String)

/-- Apply one operation the way the event loop does: `insert_device_by_id`
(tree placement part) or `remove_device_by_id` (keeping the forest the
search left behind). -/
def applyOp (f : List Device) : TrackerOp → List Device
  | .insert d => insert_deivice_into_tree f d
  | .remove id =>
    match remove_device_by_id f id with
    | some pr => pr.2
    | none => f

def applyOps (f : List Device) (ops : List TrackerOp) : List Device :=
  ops.foldl applyOp f

/-- A sequence of operations as the daemon produces them: every inserted
device comes fresh out of `Device::try_from` (no children, `tree_level`
0) and its id is not in the forest yet (hotplug connect of a device not
currently tracked). -/
inductive ValidOps : List Device → List TrackerOp → Prop where
  | nil {f} : ValidOps f []
  | insert {f : List Device} {d : Device} {ops : List TrackerOp} :
      d.devices = [] → d.tree_level = 0 → d.device_id ∉ forestIds f →
      ValidOps (applyOp f (.insert d)) ops → ValidOps f (.insert d :: ops)
  | remove {f : List Device} {id : String} {ops : List TrackerOp} :
      ValidOps (applyOp f (.remove id)) ops → ValidOps f (.remove id :: ops)

/-- No id occurs twice anywhere in the forest. -/
def UniqueIds (f : List Device) : Prop := (forestIds f).Nodup

/-- Every root-level device sits at `tree_level` 0. -/
def RootsZero (f : List Device) : Prop := ∀ d ∈ f, d.tree_level = 0

mutual
/-- Decidable check of the spec's level law on a subtree: every child's
`tree_level` is exactly its parent's plus one. -/
def deviceLevelOk : Device → Bool
  | .mk _ _ lvl ds _ _ _ _ _ => ds.all (fun c => c.tree_level == lvl + 1) && forestLevelOk ds
/-- `deviceLevelOk` across a forest. -/
def forestLevelOk : List Device → Bool
  | [] => true
  | d :: ds => deviceLevelOk d && forestLevelOk ds
end

/-- The state `apply_whitelist` chooses for a device: Enable when its id is
in the loaded set, Disable otherwise. -/
def toggleStateFor (wl : List String) (d : Device) : DeviceState :=
  if wl.contains d.device_id then .Enable else .Disable

/-- Whether the OS toggle chosen by `apply_whitelist` for this device
succeeds. -/
def toggleSucceeds (oracle : StateOracle) (wl : List String) (d : Device) : Bool :=
  match oracle d.device_id (toggleStateFor wl d) with
  | .ok _ => true
  | .error _ => false

/-! # Theorems -/




theorem utf8EncodeCharNat_cons (n : Nat) :
    ∃ b0 tl, utf8EncodeCharNat n = b0 :: tl := by
  unfold utf8EncodeCharNat
  repeat' split
  all_goals exact ⟨_, _, rfl⟩

theorem utf8DecodeNats_nil : utf8DecodeNats [] = some [] := by
  rw [utf8DecodeNats.eq_def]

theorem utf8DecodeNats_step {b0 : Nat} {tl : List Nat} {cp : Nat} {rem : List Nat}
    (h : utf8DecodeOne (b0 :: tl) = some (cp, rem)) :
    utf8DecodeNats (b0 :: tl) = (utf8DecodeNats rem).map (fun l => cp :: l) := by
  rw [utf8DecodeNats.eq_def]
  split
  · next heq => exact absurd heq (by simp)
  · split
    · next heq =>
      rw [h] at heq
      exact absurd heq (by simp)
    · next cp' rem' heq =>
      rw [h] at heq
      obtain ⟨h1, h2⟩ := Prod.mk.inj (Option.some.inj heq)
      rw [← h1, ← h2]

/-- A code point below `0xD800` or in `(0xDFFF, 0x110000)` decodes back from
its encoding, leaving the rest untouched. -/
theorem utf8DecodeOne_encode {n : Nat} (hv : n < 0xD800 ∨ (0xDFFF < n ∧ n < 0x110000))
    (bs : List Nat) : utf8DecodeOne (utf8EncodeCharNat n ++ bs) = some (n, bs) := by
  by_cases h1 : n < 0x80
  · rw [utf8EncodeCharNat, if_pos h1]
    rw [show ([n] ++ bs) = n :: bs from rfl]
    simp only [utf8DecodeOne]
    rw [if_pos h1]
  · by_cases h2 : n < 0x800
    · rw [utf8EncodeCharNat, if_neg h1, if_pos h2]
      rw [show ([0xC0 + n / 64, 0x80 + n % 64] ++ bs) = (0xC0 + n / 64) :: (0x80 + n % 64) :: bs
        from rfl]
      simp only [utf8DecodeOne, utf8Decode2]
      rw [if_neg (by omega), if_neg (by omega), if_pos (by omega : 0xC0 + n / 64 < 0xE0)]
      simp only [Nat.add_sub_cancel_left]
      rw [show n / 64 * 64 + n % 64 = n from by omega]
      rw [if_pos (by omega : 0x80 ≤ 0x80 + n % 64 ∧ 0x80 + n % 64 < 0xC0)]
    · by_cases h3 : n < 0x10000
      · rw [utf8EncodeCharNat, if_neg h1, if_neg h2, if_pos h3]
        rw [show ([0xE0 + n / 4096, 0x80 + n / 64 % 64, 0x80 + n % 64] ++ bs) =
          (0xE0 + n / 4096) :: (0x80 + n / 64 % 64) :: (0x80 + n % 64) :: bs from rfl]
        simp only [utf8DecodeOne, utf8Decode3]
        have hd : n / 4096 < 16 := by omega
        rw [if_neg (by omega), if_neg (by omega), if_neg (by omega),
          if_pos (by omega : 0xE0 + n / 4096 < 0xF0)]
        simp only [Nat.add_sub_cancel_left]
        have hval : n / 4096 * 4096 + n / 64 % 64 * 64 + n % 64 = n := by omega
        rw [hval]
        rw [if_pos (by omega)]
      · have h4 : n < 0x110000 := by omega
        rw [utf8EncodeCharNat, if_neg h1, if_neg h2, if_neg h3]
        rw [show ([0xF0 + n / 262144, 0x80 + n / 4096 % 64, 0x80 + n / 64 % 64, 0x80 + n % 64]
          ++ bs) = (0xF0 + n / 262144) :: (0x80 + n / 4096 % 64) :: (0x80 + n / 64 % 64) ::
          (0x80 + n % 64) :: bs from rfl]
        simp only [utf8DecodeOne, utf8Decode4]
        have hd : n / 262144 < 5 := by omega
        rw [if_neg (by omega), if_neg (by omega), if_neg (by omega), if_neg (by omega),
          if_pos (by omega : 0xF0 + n / 262144 < 0xF5)]
        simp only [Nat.add_sub_cancel_left]
        have hval : n / 262144 * 262144 + n / 4096 % 64 * 4096 + n / 64 % 64 * 64 +
            n % 64 = n := by omega
        rw [hval]
        rw [if_pos (by omega)]

theorem utf8DecodeNats_encode (c : Char) (bs : List Nat) :
    utf8DecodeNats (utf8EncodeCharNat c.toNat ++ bs) =
      (utf8DecodeNats bs).map (fun l => c.toNat :: l) := by
  have hv : c.toNat < 0xD800 ∨ (0xDFFF < c.toNat ∧ c.toNat < 0x110000) := by
    rcases c.valid with h | ⟨ha, hb⟩
    · exact Or.inl h
    · exact Or.inr ⟨ha, hb⟩
  have henc := utf8DecodeOne_encode hv bs
  obtain ⟨b0, tl, hsh⟩ := utf8EncodeCharNat_cons c.toNat
  rw [hsh] at henc ⊢
  rw [List.cons_append] at henc ⊢
  exact utf8DecodeNats_step henc

theorem utf8DecodeStr_strBytes (s : String) : utf8DecodeStr (strBytes s) = some s := by
  rcases s with ⟨data⟩
  have h : utf8DecodeNats (strBytes ⟨data⟩) = some (data.map Char.toNat) := by
    induction data with
    | nil =>
      rw [show strBytes ⟨[]⟩ = [] from rfl]
      rw [utf8DecodeNats_nil]
      rfl
    | cons c cs ih =>
      have hsb : strBytes ⟨c :: cs⟩ = utf8EncodeCharNat c.toNat ++ strBytes ⟨cs⟩ := by
        simp [strBytes]
      rw [hsb, utf8DecodeNats_encode c _, ih]
      rfl
  rw [utf8DecodeStr, h]
  rw [Option.map_some']
  congr 1
  apply String.ext
  show (data.map Char.toNat).map Char.ofNat = data
  rw [List.map_map]
  have hco : (Char.ofNat ∘ Char.toNat) = fun c : Char => c := by
    funext c
    exact Char.ofNat_toNat c
  rw [hco]
  exact List.map_id' data


theorem u64_le_roundtrip {n : Nat} (h : n < 2 ^ 64) :
    u64FromLeBytes (u64ToLeBytes n) = n := by
  simp only [u64ToLeBytes, u64FromLeBytes]
  omega

theorem serialize_foldl_init (init : List Nat) (l : List String) :
    l.foldl (fun out s => out ++ (u64ToLeBytes (strBytes s).length ++ strBytes s)) init =
      init ++ serialize_set_bytes l := by
  induction l generalizing init with
  | nil => simp [serialize_set_bytes]
  | cons s rest ih =>
    rw [serialize_set_bytes, List.foldl_cons, List.foldl_cons, ih, ih, List.nil_append,
      List.append_assoc]

theorem serialize_cons (s : String) (l : List String) :
    serialize_set_bytes (s :: l) =
      (u64ToLeBytes (strBytes s).length ++ strBytes s) ++ serialize_set_bytes l := by
  rw [serialize_set_bytes, List.foldl_cons, serialize_foldl_init, List.nil_append]

theorem u64ToLeBytes_length (n : Nat) : (u64ToLeBytes n).length = 8 := by
  simp [u64ToLeBytes]

theorem deserialize_record (s : String) (tail : List Nat)
    (hlen : (strBytes s).length < 2 ^ 64) :
    deserialize_set_bytes ((u64ToLeBytes (strBytes s).length ++ strBytes s) ++ tail) =
      (deserialize_set_bytes tail).map (fun out => s :: out) := by
  have hne : ∃ b0 bs, (u64ToLeBytes (strBytes s).length ++ strBytes s) ++ tail = b0 :: bs := by
    simp [u64ToLeBytes]
  obtain ⟨b0, bs, hsh⟩ := hne
  rw [deserialize_set_bytes.eq_def]
  split
  · next heq =>
    rw [hsh] at heq
    exact absurd heq (by simp)
  · next heq =>
    have hlen8 : ((u64ToLeBytes (strBytes s).length ++ strBytes s) ++ tail).length =
        8 + ((strBytes s).length + tail.length) := by
      simp [u64ToLeBytes]
      omega
    rw [dif_neg (by omega)]
    have htake8 : ((u64ToLeBytes (strBytes s).length ++ strBytes s) ++ tail).take 8 =
        u64ToLeBytes (strBytes s).length := by
      rw [List.append_assoc, List.take_left' (u64ToLeBytes_length _)]
    have hdrop8 : ((u64ToLeBytes (strBytes s).length ++ strBytes s) ++ tail).drop 8 =
        strBytes s ++ tail := by
      rw [List.append_assoc, List.drop_left' (u64ToLeBytes_length _)]
    rw [htake8, hdrop8, u64_le_roundtrip hlen]
    rw [dif_neg (by simp)]
    rw [List.take_left' rfl, List.drop_left' rfl, utf8DecodeStr_strBytes]

theorem deserialize_serialize_mem (l : List String)
    (hlen : ∀ s ∈ l, (strBytes s).length < 2 ^ 64) :
    ∃ out, deserialize_set_bytes (serialize_set_bytes l) = .ok out ∧
      (∀ x, x ∈ out ↔ x ∈ l) := by
  induction l with
  | nil =>
    refine ⟨[], ?_, by simp⟩
    rw [show serialize_set_bytes [] = [] from rfl]
    rw [deserialize_set_bytes.eq_def]
  | cons s rest ih =>
    obtain ⟨out, hout, hmem⟩ := ih (fun x hx => hlen x (List.mem_cons_of_mem _ hx))
    refine ⟨s :: out, ?_, ?_⟩
    · rw [serialize_cons, deserialize_record s _ (hlen s (List.mem_cons_self _ _)), hout]
      rfl
    · intro x
      simp [hmem x]

/-- **C6.** For every finite set of DeviceIds (modelled as the list of the
`HashSet`'s elements, each of byte length below `2^64`, as any Rust string
is), deserializing the serialized whitelist encoding succeeds and returns a
set with exactly the original membership. -/
theorem C6_whitelist_roundtrip (l : List String)
    (hlen : ∀ s ∈ l, (strBytes s).length < 2 ^ 64) :
    ∃ out, deserialize_set_bytes (serialize_set_bytes l) = .ok out ∧
      (∀ x, x ∈ out ↔ x ∈ l) :=
  deserialize_serialize_mem l hlen

/-- Witness for C6 at a concrete two-element set. -/
theorem C6_whitelist_roundtrip_witness :
    ∃ out, deserialize_set_bytes (serialize_set_bytes ["USB\\VID_046D&PID_C52B\\5", "HID\\X"])
        = .ok out ∧
      (∀ x, x ∈ out ↔ x ∈ ["USB\\VID_046D&PID_C52B\\5", "HID\\X"]) :=
  C6_whitelist_roundtrip ["USB\\VID_046D&PID_C52B\\5", "HID\\X"]
    (by intro s hs; fin_cases hs <;> decide)

/-- **C9 (counterexample).** The claim's expected output keeps the lowercase
`f` of `2752457f`, but the function upper-cases the whole result: on the
documented example path the claimed equality is false. -/
theorem C9_cex_lowercase_f :
    device_path_to_device_id
        "\\\\?\\USB#VID_046D&PID_C52B#5&2752457f&0&2#\x7ba5dcbf10-6530-11d2-901f-00c04fb951ed\x7d"
      ≠ "USB\\VID_046D&PID_C52B\\5&2752457f&0&2" := by
  decide

/-- **C9 (amended).** `device_path_to_device_id` strips the `\\?\` marker,
drops everything from the last `#` onward, replaces each remaining `#` with
`\` and upper-cases the result; on the documented example path it produces
exactly `USB\VID_046D&PID_C52B\5&2752457F&0&2` (with the upper-case `F` that
`to_uppercase` actually yields). -/
theorem C9_device_path_to_device_id :
    device_path_to_device_id
        "\\\\?\\USB#VID_046D&PID_C52B#5&2752457f&0&2#\x7ba5dcbf10-6530-11d2-901f-00c04fb951ed\x7d"
      = "USB\\VID_046D&PID_C52B\\5&2752457F&0&2" := by
  decide


/-- **C2.** On the three-level chain A ← B ← C (each device fresh from
enumeration), `convert_devices_into_tree` does not build the forest: the
`while let` in `place_child_in_parent` finds the same `(B, C)` edge again
after placing it (the `parent_ids` list is never mutated), and the repeated
body panics on `devices.remove(child_id).unwrap()`, since C has already
been moved out of the top-level map.  The fuelled embedding returns the
explicit panic value (not fuel exhaustion). -/
theorem C2_three_level_chain_panics :
    convert_devices_into_tree 1000
        [Device.mk "A" none 0 [] none none none none none,
         Device.mk "B" (some "A") 0 [] none none none none none,
         Device.mk "C" (some "B") 0 [] none none none none none] =
      .error .unwrapNone := by
  rfl

/-- **C1 (counterexample).** The valid insert sequence O (declared parent
P, absent), then X under O, then P re-parents O (with its subtree holding
X) under P — but X's `tree_level` stays 1 while its parent O now also sits
at level 1, so the claimed level law fails. -/
theorem C1_cex_stale_descendant_level :
    forestLevelOk (applyOps []
        [.insert (Device.mk "O" (some "P") 0 [] none none none none none),
         .insert (Device.mk "X" (some "O") 0 [] none none none none none),
         .insert (Device.mk "P" none 0 [] none none none none none)]) = false := by
  simp only [applyOps, List.foldl_cons, List.foldl_nil, applyOp, insert_deivice_into_tree,
    find_parent_insert, findParentLoop, reparentOrphan, insertKeyed, removeKeyed, updateFirst,
    containsKey, getKeyed, Device.device_id, Device.parent_id, Device.tree_level,
    Device.devices, Device.withTreeLevel, Device.withDevices]
  decide

/-- **C8.** The event loop's responses diverge from the claimed framing:
an `EnableDevice` success reply is `convert_bytes_to_payload` applied
twice (the payload behind the outer 4-byte prefix starts with another
4-byte length, not the message text), and the `GetDeviceConnectionLogs`
payload starts with the 1024 zero bytes of `vec![0u8; 1024]` instead of
the newline-joined log lines. -/
theorem C8_response_framing_bugs :
    dispatchResponse (fun _ _ => .ok ()) [Device.mk "A" none 0 [] none none none none none] []
        (.EnableDevice "A") =
      convert_bytes_to_payload (convert_bytes_to_payload (strBytes "Device enabled.")) ∧
    dispatchResponse (fun _ _ => .ok ()) [Device.mk "A" none 0 [] none none none none none] []
        (.EnableDevice "A") ≠
      convert_bytes_to_payload (strBytes "Device enabled.") ∧
    dispatchResponse (fun _ _ => .ok ()) [] ["log line"] .GetDeviceConnectionLogs =
      convert_bytes_to_payload (List.replicate 1024 0 ++ (strBytes "log line" ++ [10])) := by
  have h1 : dispatchResponse (fun _ _ => .ok ())
      [Device.mk "A" none 0 [] none none none none none] [] (.EnableDevice "A") =
      convert_bytes_to_payload (convert_bytes_to_payload (strBytes "Device enabled.")) := by
    simp only [dispatchResponse, set_device_state, find_device_in_tree, getKeyed,
      change_state, Device.device_id, List.find?]
    rfl
  refine ⟨h1, ?_, by rfl⟩
  rw [h1]
  decide

theorem u32BeBytes_length (n : Nat) : (u32BeBytes n).length = 4 := by
  simp [u32BeBytes]

theorem u32_be_roundtrip {n : Nat} (h : n < 2 ^ 32) : u32FromBeBytes (u32BeBytes n) = n := by
  simp only [u32BeBytes, u32FromBeBytes]
  omega

theorem connectionStep_of (oracle : StateOracle) (tracker : List Device)
    (logs : List String) (stream lb r1 : List Nat) (ocmd : Option IoApiCommand)
    (r2 : List Nat) (h4 : read_exact 4 stream = some (lb, r1))
    (hp : parse_cmd_message r1 (u32FromBeBytes lb) = (ocmd, r2)) :
    connectionStep oracle tracker logs stream =
      ⟨ocmd.map (dispatchResponse oracle tracker logs), false, r2⟩ := by
  cases ocmd <;>
    simp only [connectionStep, h4, hp, Option.map_some, Option.map_none, Option.map] <;>
    rfl

/-- One event-loop iteration on a connection whose pending bytes start with
one complete frame consumes exactly that frame; the response is the
dispatch of the parsed command, or nothing when the body is unparseable. -/
theorem connectionStep_frame (oracle : StateOracle) (tracker : List Device)
    (logs : List String) (body rest : List Nat) (hlen : body.length < 2 ^ 32) :
    connectionStep oracle tracker logs ((u32BeBytes body.length ++ body) ++ rest) =
      ⟨(parse_body body).map (dispatchResponse oracle tracker logs), false, rest⟩ := by
  have h4 : read_exact 4 ((u32BeBytes body.length ++ body) ++ rest) =
      some (u32BeBytes body.length, body ++ rest) := by
    rw [List.append_assoc]
    rw [read_exact, if_pos (by simp [u32BeBytes_length])]
    rw [List.take_left' (u32BeBytes_length _), List.drop_left' (u32BeBytes_length _)]
  have hr : read_exact body.length (body ++ rest) = some (body, rest) := by
    rw [read_exact, if_pos (by simp)]
    rw [List.take_left' rfl, List.drop_left' rfl]
  have hp : parse_cmd_message (body ++ rest) (u32FromBeBytes (u32BeBytes body.length)) =
      (parse_body body, rest) := by
    rw [u32_be_roundtrip hlen]
    simp only [parse_cmd_message, hr]
  exact connectionStep_of oracle tracker logs _ _ _ _ _ h4 hp

/-- **C7.** A malformed request body (one the parser rejects) inside a
complete frame is discarded silently: no response bytes are produced, the
connection is not marked for closure, and only that frame is consumed —
a following well-formed frame on the same connection is then dispatched
normally. -/
theorem C7_malformed_request_skipped (oracle : StateOracle) (tracker : List Device)
    (logs : List String) (badBody goodBody rest : List Nat) (cmd : IoApiCommand)
    (hbadlen : badBody.length < 2 ^ 32) (hgoodlen : goodBody.length < 2 ^ 32)
    (hbad : parse_body badBody = none) (hgood : parse_body goodBody = some cmd) :
    connectionStep oracle tracker logs
        ((u32BeBytes badBody.length ++ badBody) ++
          ((u32BeBytes goodBody.length ++ goodBody) ++ rest)) =
      ⟨none, false, (u32BeBytes goodBody.length ++ goodBody) ++ rest⟩ ∧
    connectionStep oracle tracker logs ((u32BeBytes goodBody.length ++ goodBody) ++ rest) =
      ⟨some (dispatchResponse oracle tracker logs cmd), false, rest⟩ := by
  constructor
  · rw [connectionStep_frame oracle tracker logs badBody _ hbadlen, hbad]
    rfl
  · rw [connectionStep_frame oracle tracker logs goodBody _ hgoodlen, hgood]
    rfl

/-- Witness for C7: opcode byte 9 is unparseable; a subsequent
`GetDeviceConnectionLogs` request (opcode 5) succeeds. -/
theorem C7_malformed_request_skipped_witness :
    connectionStep (fun _ _ => .ok ()) [] []
        ((u32BeBytes 1 ++ [9]) ++ ((u32BeBytes 1 ++ [5]) ++ [])) =
      ⟨none, false, (u32BeBytes 1 ++ [5]) ++ []⟩ ∧
    connectionStep (fun _ _ => .ok ()) [] [] ((u32BeBytes 1 ++ [5]) ++ []) =
      ⟨some (dispatchResponse (fun _ _ => .ok ()) [] [] .GetDeviceConnectionLogs), false, []⟩ :=
  C7_malformed_request_skipped (fun _ _ => .ok ()) [] [] [9] [5] []
    .GetDeviceConnectionLogs (by decide) (by decide)
    (by simp [parse_body, from_utf8_lossy, utf8DecodeLossyNats, ioApiCommand_try_from])
    (by simp [parse_body, from_utf8_lossy, utf8DecodeLossyNats, ioApiCommand_try_from])

/-- The body of `apply_whitelist` over a device sequence in which every
device resolves to itself by id: the returned `Result` is `Ok` exactly
when every toggle succeeds, otherwise the first failing toggle's error, and
the OS calls issued are the successful prefix plus the failing one. -/
theorem applyLoop_spec (oracle : StateOracle) (tracker : List Device) (wl : List String)
    (l : List Device)
    (hfind : ∀ d ∈ l, find_device_in_tree tracker d.device_id = some d) :
    applyLoop oracle tracker wl l =
      ((match l.dropWhile (toggleSucceeds oracle wl) with
        | [] => .ok ()
        | bad :: _ => oracle bad.device_id (toggleStateFor wl bad)),
       ((l.takeWhile (toggleSucceeds oracle wl) ++
          (l.dropWhile (toggleSucceeds oracle wl)).take 1).map
         (fun d => (d.device_id, toggleStateFor wl d)))) := by
  induction l with
  | nil => simp [applyLoop]
  | cons d rest ih =>
    have hfd : find_device_in_tree tracker d.device_id = some d :=
      hfind d (List.mem_cons_self _ _)
    have hrest : ∀ x ∈ rest, find_device_in_tree tracker x.device_id = some x :=
      fun x hx => hfind x (List.mem_cons_of_mem _ hx)
    rcases hor : oracle d.device_id (toggleStateFor wl d) with e | u
    · have hts : toggleSucceeds oracle wl d = false := by
        rw [toggleSucceeds, hor]
      have hor2 : oracle d.device_id (if d.device_id ∈ wl then DeviceState.Enable
          else DeviceState.Disable) = .error e := by
        simpa [toggleStateFor] using hor
      simp [applyLoop, hfd, hor2, List.takeWhile_cons, List.dropWhile_cons, hts, toggleStateFor]
    · have hts : toggleSucceeds oracle wl d = true := by
        rw [toggleSucceeds, hor]
      have hor2 : oracle d.device_id (if d.device_id ∈ wl then DeviceState.Enable
          else DeviceState.Disable) = .ok u := by
        simpa [toggleStateFor] using hor
      simp [applyLoop, hfd, hor2, List.takeWhile_cons, List.dropWhile_cons, hts,
        ih hrest, toggleStateFor]

theorem dropWhile_head_false {p : α → Bool} {l : List α} {b : α} {tl : List α}
    (h : l.dropWhile p = b :: tl) : p b = false := by
  have hl : 0 < (l.dropWhile p).length := by
    rw [h]
    simp
  have hn := List.dropWhile_get_zero_not p l hl
  have hb : (l.dropWhile p).get ⟨0, hl⟩ = b := by
    simp [List.get_eq_getElem, h]
  rw [hb] at hn
  exact Bool.not_eq_true _ ▸ hn

/-- **C3 (counterexample).** With two root devices, an empty whitelist and
an OS on which every toggle fails, `apply_whitelist` issues only one of
the two toggles and aborts with that error: a failed toggle is fatal to
the rest of the pass, not reported per-device. -/
theorem C3_cex_first_failure_aborts :
    ((apply_whitelist (fun _ _ => .error .AccessDenied)
        [Device.mk "A" none 0 [] none none none none none,
         Device.mk "B" none 0 [] none none none none none] []).2).length = 1 ∧
    (iterTracker
        [Device.mk "A" none 0 [] none none none none none,
         Device.mk "B" none 0 [] none none none none none]).length = 2 ∧
    (apply_whitelist (fun _ _ => .error .AccessDenied)
        [Device.mk "A" none 0 [] none none none none none,
         Device.mk "B" none 0 [] none none none none none] []).1 =
      .error .AccessDenied := by
  have hiter : iterTracker
      [Device.mk "A" none 0 [] none none none none none,
       Device.mk "B" none 0 [] none none none none none] =
      [Device.mk "B" none 0 [] none none none none none,
       Device.mk "A" none 0 [] none none none none none] := by
    simp [iterTracker, drainStack, Device.devices]
  have hfind : find_device_in_tree
      [Device.mk "A" none 0 [] none none none none none,
       Device.mk "B" none 0 [] none none none none none] "B" =
      some (Device.mk "B" none 0 [] none none none none none) := by
    simp [find_device_in_tree, getKeyed, Device.device_id, List.find?]
  refine ⟨?_, by rw [hiter]; rfl, ?_⟩ <;>
    simp [apply_whitelist, hiter, applyLoop, hfind, Device.device_id]

/-- **C3 (amended).** `apply_whitelist` walks the Topology in iteration
order choosing Enable for whitelisted ids and Disable otherwise, but the
`?` on each `set_device_state` makes the first OS failure abort the pass:
the calls issued are the successful prefix plus the single failing toggle,
the overall result is `Ok` exactly when every toggle succeeded, and on
failure the returned error is the failing device's own toggle error. -/
theorem C3_apply_whitelist_stops_at_first_failure (oracle : StateOracle)
    (tracker : List Device) (wl : List String)
    (hfind : ∀ d ∈ iterTracker tracker, find_device_in_tree tracker d.device_id = some d) :
    (apply_whitelist oracle tracker wl).2 =
      (((iterTracker tracker).takeWhile (toggleSucceeds oracle wl) ++
        ((iterTracker tracker).dropWhile (toggleSucceeds oracle wl)).take 1).map
        (fun d => (d.device_id, toggleStateFor wl d))) ∧
    ((apply_whitelist oracle tracker wl).1 = .ok () ↔
      (iterTracker tracker).dropWhile (toggleSucceeds oracle wl) = []) ∧
    (∀ bad ∈ ((iterTracker tracker).dropWhile (toggleSucceeds oracle wl)).take 1,
      (apply_whitelist oracle tracker wl).1 = oracle bad.device_id (toggleStateFor wl bad)) := by
  have h := applyLoop_spec oracle tracker wl (iterTracker tracker) hfind
  rw [apply_whitelist, h]
  refine ⟨rfl, ?_, ?_⟩
  · rcases hd : (iterTracker tracker).dropWhile (toggleSucceeds oracle wl) with _ | ⟨bad, tl⟩
    · simp [hd]
    · have hbf : toggleSucceeds oracle wl bad = false := dropWhile_head_false hd
      rcases hor : oracle bad.device_id (toggleStateFor wl bad) with e | u
      · simp [hd, hor]
      · rw [toggleSucceeds, hor] at hbf
        exact absurd hbf (by simp)
  · intro bad hbad
    rcases hd : (iterTracker tracker).dropWhile (toggleSucceeds oracle wl) with _ | ⟨b, tl⟩
    · rw [hd] at hbad
      exact absurd hbad (by simp)
    · rw [hd] at hbad
      simp only [List.take_succ_cons, List.take_zero, List.mem_singleton] at hbad
      subst hbad
      simp only [hd]

/-- Witness for C3 (amended) at a concrete one-device tracker with an
always-succeeding OS. -/
theorem C3_apply_whitelist_witness :
    (apply_whitelist (fun _ _ => .ok ())
        [Device.mk "A" none 0 [] none none none none none] ["A"]).2 =
      (((iterTracker [Device.mk "A" none 0 [] none none none none none]).takeWhile
          (toggleSucceeds (fun _ _ => .ok ()) ["A"]) ++
        ((iterTracker [Device.mk "A" none 0 [] none none none none none]).dropWhile
          (toggleSucceeds (fun _ _ => .ok ()) ["A"])).take 1).map
        (fun d => (d.device_id, toggleStateFor ["A"] d))) ∧
    ((apply_whitelist (fun _ _ => .ok ())
        [Device.mk "A" none 0 [] none none none none none] ["A"]).1 = .ok () ↔
      (iterTracker [Device.mk "A" none 0 [] none none none none none]).dropWhile
        (toggleSucceeds (fun _ _ => .ok ()) ["A"]) = []) ∧
    (∀ bad ∈ ((iterTracker [Device.mk "A" none 0 [] none none none none none]).dropWhile
        (toggleSucceeds (fun _ _ => .ok ()) ["A"])).take 1,
      (apply_whitelist (fun _ _ => .ok ())
          [Device.mk "A" none 0 [] none none none none none] ["A"]).1 =
        (fun (_ : String) (_ : DeviceState) => (Except.ok () : Except Win32Error Unit))
          bad.device_id (toggleStateFor ["A"] bad)) :=
  C3_apply_whitelist_stops_at_first_failure (fun _ _ => .ok ())
    [Device.mk "A" none 0 [] none none none none none] ["A"]
    (by
      intro d hd
      have hiter : iterTracker [Device.mk "A" none 0 [] none none none none none] =
          [Device.mk "A" none 0 [] none none none none none] := by
        simp [iterTracker, drainStack, Device.devices]
      rw [hiter] at hd
      simp only [List.mem_singleton] at hd
      subst hd
      simp [find_device_in_tree, getKeyed, Device.device_id, List.find?])

theorem hex_val_digit {m : Nat} (h : m < 16) : hex_val (hexDigitByte m) = .ok m := by
  unfold hexDigitByte hex_val
  by_cases h10 : m < 10
  · rw [if_pos h10, if_pos (by omega)]
    congr 1
    omega
  · rw [if_neg h10, if_neg (by omega), if_pos (by omega)]
    congr 1
    omega

theorem encode_hex_cons (b : Nat) (tl : List Nat) :
    encode_hex (b :: tl) =
      hexDigitByte (b / 16) :: hexDigitByte (b % 16) :: encode_hex tl := by
  simp [encode_hex]

theorem encode_hex_length (bytes : List Nat) : (encode_hex bytes).length = 2 * bytes.length := by
  induction bytes with
  | nil => rfl
  | cons b tl ih =>
    rw [encode_hex_cons]
    simp only [List.length_cons, ih]
    omega

theorem decodeHexLoop_encode {bytes : List Nat} (h : ∀ b ∈ bytes, b < 256) :
    decodeHexLoop (encode_hex bytes) = .ok bytes := by
  induction bytes with
  | nil => rfl
  | cons b tl ih =>
    have hb : b < 256 := h b (List.mem_cons_self _ _)
    have htl : ∀ x ∈ tl, x < 256 := fun x hx => h x (List.mem_cons_of_mem _ hx)
    have henc : encode_hex (b :: tl) =
        hexDigitByte (b / 16) :: hexDigitByte (b % 16) :: encode_hex tl := by
      simp [encode_hex]
    rw [henc]
    simp only [decodeHexLoop, hex_val_digit (by omega : b / 16 < 16),
      hex_val_digit (by omega : b % 16 < 16), ih htl]
    have : b / 16 * 16 + b % 16 = b := by omega
    rw [this]
    rfl

theorem decode_hex_encode_hex {bytes : List Nat} (h : ∀ b ∈ bytes, b < 256) :
    decode_hex (encode_hex bytes) = .ok bytes := by
  rw [decode_hex, if_neg (by rw [encode_hex_length]; omega)]
  exact decodeHexLoop_encode h

theorem utf8EncodeCharNat_lt {n : Nat} (h : n < 0x110000) :
    ∀ b ∈ utf8EncodeCharNat n, b < 256 := by
  intro b hb
  unfold utf8EncodeCharNat at hb
  split at hb
  · simp at hb
    omega
  · split at hb
    · simp at hb
      rcases hb with rfl | rfl <;> omega
    · split at hb
      · simp at hb
        rcases hb with rfl | rfl | rfl <;> omega
      · simp at hb
        rcases hb with rfl | rfl | rfl | rfl <;> omega

theorem strBytes_lt (s : String) : ∀ b ∈ strBytes s, b < 256 := by
  intro b hb
  rw [strBytes, List.mem_flatMap] at hb
  obtain ⟨c, _, hbc⟩ := hb
  have hc : c.toNat < 0x110000 := by
    rcases c.valid with hv | ⟨_, hv⟩ <;> (simp only [Char.toNat] at *; omega)
  exact utf8EncodeCharNat_lt hc b hbc

theorem u64ToLeBytes_lt (n : Nat) : ∀ b ∈ u64ToLeBytes n, b < 256 := by
  intro b hb
  simp only [u64ToLeBytes, List.mem_cons, List.mem_singleton, List.not_mem_nil,
    or_false] at hb
  rcases hb with rfl | rfl | rfl | rfl | rfl | rfl | rfl | rfl
  all_goals omega

theorem serialize_set_bytes_lt (l : List String) : ∀ b ∈ serialize_set_bytes l, b < 256 := by
  induction l with
  | nil =>
    intro b hb
    simp [serialize_set_bytes] at hb
  | cons s tl ih =>
    intro b hb
    rw [serialize_cons] at hb
    rcases List.mem_append.mp hb with h1 | h2
    · rcases List.mem_append.mp h1 with hu | hs
      · exact u64ToLeBytes_lt _ b hu
      · exact strBytes_lt s b hs
    · exact ih b h2

/-- **C10.** `Whitelist::new` unconditionally overwrites the persisted
blob — the written value does not depend on what was stored before — and
the stored set decodes to exactly the ids of the tracker's root-level map
entries (the keys of the top-level map, not the depth-first descendants). -/
theorem C10_whitelist_new_stores_root_ids (tracker : List Device)
    (prev1 prev2 : Option (List Nat))
    (hlen : ∀ d ∈ tracker, (strBytes d.device_id).length < 2 ^ 64) :
    whitelist_new_blob tracker prev1 = whitelist_new_blob tracker prev2 ∧
    ∃ out, load_whitelist (whitelist_new_blob tracker prev1) = .ok out ∧
      (∀ x, x ∈ out ↔ x ∈ tracker.map Device.device_id) := by
  constructor
  · rfl
  · have hlen' : ∀ s ∈ tracker.map Device.device_id, (strBytes s).length < 2 ^ 64 := by
      intro s hs
      obtain ⟨d, hd, rfl⟩ := List.mem_map.mp hs
      exact hlen d hd
    obtain ⟨out, hout, hmem⟩ := deserialize_serialize_mem (tracker.map Device.device_id) hlen'
    refine ⟨out, ?_, hmem⟩
    rw [whitelist_new_blob, store_whitelist, load_whitelist,
      decode_hex_encode_hex (serialize_set_bytes_lt _)]
    exact hout

/-- Witness for C10 at a tracker with one root that has one child: the
stored set is exactly the root id. -/
theorem C10_whitelist_new_stores_root_ids_witness :
    whitelist_new_blob
        [Device.mk "R" none 0 [Device.mk "K" (some "R") 1 [] none none none none none]
          none none none none none] (some [1, 2, 3]) =
      whitelist_new_blob
        [Device.mk "R" none 0 [Device.mk "K" (some "R") 1 [] none none none none none]
          none none none none none] none ∧
    ∃ out, load_whitelist (whitelist_new_blob
        [Device.mk "R" none 0 [Device.mk "K" (some "R") 1 [] none none none none none]
          none none none none none] (some [1, 2, 3])) = .ok out ∧
      (∀ x, x ∈ out ↔ x ∈
        ([Device.mk "R" none 0 [Device.mk "K" (some "R") 1 [] none none none none none]
          none none none none none].map Device.device_id)) :=
  C10_whitelist_new_stores_root_ids
    [Device.mk "R" none 0 [Device.mk "K" (some "R") 1 [] none none none none none]
      none none none none none] (some [1, 2, 3]) none
    (by
      intro d hd
      simp only [List.mem_singleton] at hd
      subst hd
      decide)

/-! ## Forest entry bookkeeping -/

theorem deviceEntries_head (d : Device) :
    deviceEntries d = (d.device_id, d.device_service) :: forestEntries d.devices := by
  cases d
  rfl

theorem forestEntries_cons (d : Device) (ds : List Device) :
    forestEntries (d :: ds) = deviceEntries d ++ forestEntries ds := by
  simp [forestEntries]

theorem forestEntries_append (a b : List Device) :
    forestEntries (a ++ b) = forestEntries a ++ forestEntries b := by
  induction a with
  | nil => simp [forestEntries]
  | cons d ds ih =>
    rw [List.cons_append, forestEntries_cons, forestEntries_cons, ih, List.append_assoc]

theorem deviceEntries_withTreeLevel (d : Device) (l : Nat) :
    deviceEntries (d.withTreeLevel l) = deviceEntries d := by
  cases d
  rfl

theorem deviceEntries_withDevices (d : Device) (ds : List Device) :
    deviceEntries (d.withDevices ds) = (d.device_id, d.device_service) :: forestEntries ds := by
  cases d
  rfl

theorem device_id_withTreeLevel (d : Device) (l : Nat) :
    (d.withTreeLevel l).device_id = d.device_id := by
  cases d
  rfl

theorem tree_level_withDevices (d : Device) (ds : List Device) :
    (d.withDevices ds).tree_level = d.tree_level := by
  cases d
  rfl

theorem attachChild_tree_level (c p : Device) :
    (attachChild c p).tree_level = p.tree_level := by
  rw [attachChild, tree_level_withDevices]

theorem forestIds_cons (d : Device) (ds : List Device) :
    forestIds (d :: ds) =
      d.device_id :: (forestIds d.devices ++ forestIds ds) := by
  rw [forestIds, forestEntries_cons, deviceEntries_head]
  simp [forestIds]

theorem containsKey_false_iff (id : String) (f : List Device) :
    containsKey id f = false ↔ ∀ d ∈ f, d.device_id ≠ id := by
  simp [containsKey]

theorem containsKey_true_iff (id : String) (f : List Device) :
    containsKey id f = true ↔ ∃ d ∈ f, d.device_id = id := by
  simp [containsKey]

theorem mem_forestIds_of_mem {d : Device} {f : List Device} (h : d ∈ f) :
    d.device_id ∈ forestIds f := by
  induction f with
  | nil => cases h
  | cons x xs ih =>
    rw [forestIds_cons]
    rcases List.mem_cons.mp h with rfl | h'
    · exact List.mem_cons_self _ _
    · exact List.mem_cons_of_mem _ (List.mem_append_right _ (ih h'))

theorem insertKeyed_entries {d : Device} {f : List Device}
    (h : containsKey d.device_id f = false) :
    forestEntries (insertKeyed d f) = forestEntries f ++ deviceEntries d := by
  induction f with
  | nil => simp [insertKeyed, forestEntries_cons, forestEntries]
  | cons x xs ih =>
    rw [containsKey_false_iff] at h
    have hx : x.device_id ≠ d.device_id := h x (List.mem_cons_self _ _)
    have hxs : containsKey d.device_id xs = false := by
      rw [containsKey_false_iff]
      exact fun y hy => h y (List.mem_cons_of_mem _ hy)
    rw [insertKeyed, if_neg hx, forestEntries_cons, forestEntries_cons, ih hxs,
      List.append_assoc]

theorem AllEntries_anti {P : String × Option String → Prop} {f g : List Device}
    (hsub : ∀ e ∈ forestEntries g, e ∈ forestEntries f) (hf : AllEntries P f) :
    AllEntries P g :=
  fun e he => hf e (hsub e he)

theorem AllEntries_cons_iff {P : String × Option String → Prop} {d : Device}
    {f : List Device} :
    AllEntries P (d :: f) ↔ (∀ e ∈ deviceEntries d, P e) ∧ AllEntries P f := by
  constructor
  · intro h
    exact ⟨fun e he => h e (by rw [forestEntries_cons]; exact List.mem_append_left _ he),
      fun e he => h e (by rw [forestEntries_cons]; exact List.mem_append_right _ he)⟩
  · intro ⟨h1, h2⟩ e he
    rw [forestEntries_cons] at he
    rcases List.mem_append.mp he with he | he
    · exact h1 e he
    · exact h2 e he

theorem AllEntries_insertKeyed {P : String × Option String → Prop} {d : Device}
    {f : List Device} (hf : AllEntries P f) (hd : ∀ e ∈ deviceEntries d, P e) :
    AllEntries P (insertKeyed d f) := by
  induction f with
  | nil =>
    intro e he
    rw [show insertKeyed d [] = [d] from rfl, forestEntries_cons] at he
    rcases List.mem_append.mp he with he | he
    · exact hd e he
    · simp [forestEntries] at he
  | cons x xs ih =>
    obtain ⟨hx, hxs⟩ := AllEntries_cons_iff.mp hf
    intro e he
    rw [insertKeyed] at he
    split at he
    · exact AllEntries_cons_iff.mpr ⟨hd, hxs⟩ e he
    · exact AllEntries_cons_iff.mpr ⟨hx, ih hxs⟩ e he

theorem removeKeyed_eq_some {id : String} {f : List Device} {d : Device} {f' : List Device}
    (h : removeKeyed id f = some (d, f')) :
    d.device_id = id ∧
    List.Perm (forestEntries f) (deviceEntries d ++ forestEntries f') ∧
    (∀ x ∈ f', x ∈ f) := by
  induction f generalizing f' with
  | nil => simp [removeKeyed] at h
  | cons x xs ih =>
    rw [removeKeyed] at h
    split at h
    · next heq =>
      obtain ⟨h1, h2⟩ := Prod.mk.inj (Option.some.inj h)
      subst h1
      subst h2
      exact ⟨heq, by rw [forestEntries_cons], fun y hy => List.mem_cons_of_mem _ hy⟩
    · next heq =>
      rcases hr : removeKeyed id xs with _ | ⟨d0, rest⟩
      · rw [hr] at h
        simp at h
      · rw [hr] at h
        simp only [Option.map_some'] at h
        obtain ⟨h1, h2⟩ := Prod.mk.inj (Option.some.inj h)
        subst h1
        subst h2
        obtain ⟨hid, hperm, hmem⟩ := ih hr
        refine ⟨hid, ?_, ?_⟩
        · rw [forestEntries_cons, forestEntries_cons]
          exact (hperm.append_left (deviceEntries x)).trans
            (List.perm_append_comm_assoc _ _ _)
        · intro y hy
          rcases List.mem_cons.mp hy with rfl | hy'
          · exact List.mem_cons_self _ _
          · exact List.mem_cons_of_mem _ (hmem y hy')

theorem removeKeyed_eq_none {id : String} {f : List Device}
    (h : removeKeyed id f = none) : containsKey id f = false := by
  induction f with
  | nil => rfl
  | cons x xs ih =>
    rw [removeKeyed] at h
    split at h
    · simp at h
    · next heq =>
      rcases hr : removeKeyed id xs with _ | pr
      · rw [containsKey_false_iff]
        intro y hy
        rcases List.mem_cons.mp hy with rfl | hy'
        · exact heq
        · exact (containsKey_false_iff id xs).mp (ih hr) y hy'
      · rw [hr] at h
        simp at h

theorem updateFirst_map_tree_level {id : String} {g : Device → Device} {f : List Device}
    (hg : ∀ x, (g x).tree_level = x.tree_level) :
    (updateFirst id g f).map Device.tree_level = f.map Device.tree_level := by
  induction f with
  | nil => rfl
  | cons x xs ih =>
    rw [updateFirst]
    split
    · simp [hg x]
    · simp [ih]

theorem updateFirst_attach_perm {pid : String} {c : Device} {f : List Device}
    (hfresh : c.device_id ∉ forestIds f) (hcont : containsKey pid f = true) :
    List.Perm (forestEntries (updateFirst pid (attachChild c) f))
      (deviceEntries c ++ forestEntries f) := by
  induction f with
  | nil => simp [containsKey] at hcont
  | cons x xs ih =>
    rw [forestIds_cons] at hfresh
    simp only [List.mem_cons, List.mem_append] at hfresh
    push_neg at hfresh
    obtain ⟨hne, hnin1, hnin2⟩ := hfresh
    rw [updateFirst]
    split
    · next heq =>
      rw [forestEntries_cons, forestEntries_cons, attachChild, deviceEntries_withDevices]
      have hf : containsKey (c.withTreeLevel (x.tree_level + 1)).device_id x.devices
          = false := by
        rw [device_id_withTreeLevel, containsKey_false_iff]
        intro y hy hid
        exact hnin1 (hid ▸ mem_forestIds_of_mem hy)
      rw [insertKeyed_entries hf, deviceEntries_withTreeLevel, deviceEntries_head x]
      refine List.Perm.trans ?_ List.perm_middle.symm
      rw [List.cons_append, List.append_assoc]
      exact List.Perm.cons _ (List.perm_append_comm_assoc _ _ _)
    · next heq =>
      have hcxs : containsKey pid xs = true := by
        rcases (containsKey_true_iff pid (x :: xs)).mp hcont with ⟨y, hy, hid⟩
        rcases List.mem_cons.mp hy with rfl | hy'
        · exact absurd hid heq
        · exact (containsKey_true_iff pid xs).mpr ⟨y, hy', hid⟩
      rw [forestEntries_cons, forestEntries_cons]
      exact ((ih hnin2 hcxs).append_left (deviceEntries x)).trans
        (List.perm_append_comm_assoc _ _ _)

theorem AllEntries_updateFirst_attach {P : String × Option String → Prop} {pid : String}
    {c : Device} {f : List Device} (hf : AllEntries P f)
    (hc : ∀ e ∈ deviceEntries c, P e) :
    AllEntries P (updateFirst pid (attachChild c) f) := by
  induction f with
  | nil =>
    intro e he
    simp [updateFirst, forestEntries] at he
  | cons x xs ih =>
    obtain ⟨hx, hxs⟩ := AllEntries_cons_iff.mp hf
    rw [updateFirst]
    split
    · refine AllEntries_cons_iff.mpr ⟨?_, hxs⟩
      intro e he
      rw [attachChild, deviceEntries_withDevices] at he
      rcases List.mem_cons.mp he with rfl | he'
      · exact hx _ (by rw [deviceEntries_head]; exact List.mem_cons_self _ _)
      · have hxdev : AllEntries P x.devices := by
          intro e' he'
          exact hx e' (by rw [deviceEntries_head]; exact List.mem_cons_of_mem _ he')
        have hc' : ∀ e' ∈ deviceEntries (c.withTreeLevel (x.tree_level + 1)), P e' := by
          rw [deviceEntries_withTreeLevel]
          exact hc
        exact AllEntries_insertKeyed hxdev hc' e he'
    · exact AllEntries_cons_iff.mpr ⟨hx, ih hxs⟩

theorem sizeOf_devices_le {d : Device} {ds : List Device} {n : Nat}
    (h : sizeOf (d :: ds) ≤ n + 1) : sizeOf d.devices ≤ n ∧ sizeOf ds ≤ n := by
  have h1 := Device.sizeOf_devices d
  have h2 : sizeOf (d :: ds) = 1 + sizeOf d + sizeOf ds := by simp
  omega

/-- `find_parent_insert` on a forest not containing the child's id: the
result's entries are the old ones plus the (relevelled) child's subtree,
and the root-level `tree_level`s are unchanged. -/
theorem find_parent_insert_spec (f : List Device) (pid : String) (c : Device)
    (f' : List Device) (h : find_parent_insert f pid c = some f')
    (hfresh : c.device_id ∉ forestIds f) :
    List.Perm (forestEntries f') (deviceEntries c ++ forestEntries f) ∧
    f'.map Device.tree_level = f.map Device.tree_level := by
  suffices H : ∀ n (f : List Device), sizeOf f ≤ n → ∀ pid c f',
      (find_parent_insert f pid c = some f' → c.device_id ∉ forestIds f →
        List.Perm (forestEntries f') (deviceEntries c ++ forestEntries f) ∧
        f'.map Device.tree_level = f.map Device.tree_level) ∧
      (findParentLoop f pid c = some f' → c.device_id ∉ forestIds f →
        List.Perm (forestEntries f') (deviceEntries c ++ forestEntries f) ∧
        f'.map Device.tree_level = f.map Device.tree_level) by
    exact (H (sizeOf f) f le_rfl pid c f').1 h hfresh
  intro n
  induction n with
  | zero =>
    intro f hf
    exfalso
    rcases f with _ | ⟨d, ds⟩ <;> simp at hf
  | succ n IH =>
    intro f hsz pid c f'
    have hloop : findParentLoop f pid c = some f' → c.device_id ∉ forestIds f →
        List.Perm (forestEntries f') (deviceEntries c ++ forestEntries f) ∧
        f'.map Device.tree_level = f.map Device.tree_level := by
      rcases f with _ | ⟨d, ds⟩
      · intro h
        rw [findParentLoop] at h
        simp at h
      · intro h hfr
        obtain ⟨hd, hds⟩ := sizeOf_devices_le hsz
        rw [forestIds_cons] at hfr
        simp only [List.mem_cons, List.mem_append] at hfr
        push_neg at hfr
        obtain ⟨hne, hnin1, hnin2⟩ := hfr
        rw [findParentLoop] at h
        rcases hrec : find_parent_insert d.devices pid c with _ | nc
        · rw [hrec] at h
          rcases hloopds : findParentLoop ds pid c with _ | rest
          · rw [hloopds] at h
            simp at h
          · rw [hloopds] at h
            simp only [Option.map_some'] at h
            have hf' : f' = d :: rest := (Option.some.inj h).symm
            subst hf'
            obtain ⟨hperm, hlev⟩ := (IH ds hds pid c rest).2 hloopds hnin2
            constructor
            · rw [forestEntries_cons, forestEntries_cons]
              exact (hperm.append_left (deviceEntries d)).trans
                (List.perm_append_comm_assoc _ _ _)
            · simp [hlev]
        · rw [hrec] at h
          have hf' : f' = d.withDevices nc :: ds := (Option.some.inj h).symm
          subst hf'
          obtain ⟨hperm, hlev⟩ := (IH d.devices hd pid c nc).1 hrec hnin1
          constructor
          · rw [forestEntries_cons, forestEntries_cons, deviceEntries_withDevices,
              deviceEntries_head d]
            refine List.Perm.trans ?_ List.perm_middle.symm
            rw [List.cons_append]
            refine List.Perm.cons _ ?_
            refine (hperm.append_right _).trans ?_
            rw [List.append_assoc]
            exact List.Perm.refl _
          · simp [tree_level_withDevices]
    constructor
    · intro h hfr
      rw [find_parent_insert] at h
      split at h
      · next hcont =>
        have hf' : f' = updateFirst pid (attachChild c) f := (Option.some.inj h).symm
        subst hf'
        exact ⟨updateFirst_attach_perm hfr hcont,
          updateFirst_map_tree_level (fun x => attachChild_tree_level c x)⟩
      · exact hloop h hfr
    · exact hloop


theorem removeKeyed_sublist {id : String} {f : List Device} {d : Device} {f' : List Device}
    (h : removeKeyed id f = some (d, f')) : List.Sublist f' f := by
  induction f generalizing f' with
  | nil => simp [removeKeyed] at h
  | cons x xs ih =>
    rw [removeKeyed] at h
    split at h
    · obtain ⟨h1, h2⟩ := Prod.mk.inj (Option.some.inj h)
      subst h2
      exact List.sublist_cons_self _ _
    · rcases hr : removeKeyed id xs with _ | ⟨d0, rest⟩
      · rw [hr] at h
        simp at h
      · rw [hr] at h
        simp only [Option.map_some'] at h
        obtain ⟨h1, h2⟩ := Prod.mk.inj (Option.some.inj h)
        subst h1
        subst h2
        exact (ih hr).cons₂ x

theorem forestIds_nil : forestIds [] = [] := rfl

/-- `find_and_remove_device`: on success the removed node carries the
searched id, the forest's entries split into the removed subtree's entries
plus the rest, and the remaining root levels are a sub-sequence of the old
ones; on failure the id is nowhere in the forest. -/
theorem find_and_remove_spec (f : List Device) (id : String) :
    (∀ d f', find_and_remove_device f id = some (d, f') →
      d.device_id = id ∧
      List.Perm (forestEntries f) (deviceEntries d ++ forestEntries f') ∧
      List.Sublist (f'.map Device.tree_level) (f.map Device.tree_level)) ∧
    (find_and_remove_device f id = none → id ∉ forestIds f) := by
  suffices H : ∀ n (f : List Device), sizeOf f ≤ n →
      ((∀ d f', find_and_remove_device f id = some (d, f') →
        d.device_id = id ∧
        List.Perm (forestEntries f) (deviceEntries d ++ forestEntries f') ∧
        List.Sublist (f'.map Device.tree_level) (f.map Device.tree_level)) ∧
      (find_and_remove_device f id = none → id ∉ forestIds f)) ∧
      ((∀ d f', removeLoop f id = some (d, f') →
        d.device_id = id ∧
        List.Perm (forestEntries f) (deviceEntries d ++ forestEntries f') ∧
        List.Sublist (f'.map Device.tree_level) (f.map Device.tree_level)) ∧
      (removeLoop f id = none → containsKey id f = false → id ∉ forestIds f)) by
    exact (H (sizeOf f) f le_rfl).1
  intro n
  induction n with
  | zero =>
    intro f hf
    exfalso
    rcases f with _ | ⟨d, ds⟩ <;> simp at hf
  | succ n IH =>
    intro f hsz
    have hloop :
        (∀ d f', removeLoop f id = some (d, f') →
          d.device_id = id ∧
          List.Perm (forestEntries f) (deviceEntries d ++ forestEntries f') ∧
          List.Sublist (f'.map Device.tree_level) (f.map Device.tree_level)) ∧
        (removeLoop f id = none → containsKey id f = false → id ∉ forestIds f) := by
      rcases f with _ | ⟨x, xs⟩
      · constructor
        · intro d f' h
          rw [removeLoop] at h
          simp at h
        · intro _ _
          rw [forestIds_nil]
          simp
      · obtain ⟨hxdev, hxs⟩ := sizeOf_devices_le hsz
        constructor
        · intro d f' h
          rw [removeLoop] at h
          rcases hrec : find_and_remove_device x.devices id with _ | ⟨rd, nc⟩
          · rw [hrec] at h
            rcases hl : removeLoop xs id with _ | ⟨rd2, rest⟩
            · rw [hl] at h
              simp at h
            · rw [hl] at h
              simp only [Option.map_some'] at h
              obtain ⟨h1, h2⟩ := Prod.mk.inj (Option.some.inj h)
              subst h1
              subst h2
              obtain ⟨hid, hperm, hsub⟩ := ((IH xs hxs).2).1 rd2 rest hl
              refine ⟨hid, ?_, ?_⟩
              · rw [forestEntries_cons, forestEntries_cons]
                exact (hperm.append_left (deviceEntries x)).trans
                  (List.perm_append_comm_assoc _ _ _)
              · simp only [List.map_cons]
                exact hsub.cons₂ _
          · rw [hrec] at h
            obtain ⟨h1, h2⟩ := Prod.mk.inj (Option.some.inj h)
            subst h1
            subst h2
            obtain ⟨hid, hperm, hsub⟩ := ((IH x.devices hxdev).1).1 rd nc hrec
            refine ⟨hid, ?_, ?_⟩
            · rw [forestEntries_cons, forestEntries_cons, deviceEntries_withDevices,
                deviceEntries_head x]
              rw [List.cons_append]
              refine List.Perm.trans (List.Perm.cons _ ?_) List.perm_middle.symm
              refine (hperm.append_right _).trans ?_
              rw [List.append_assoc]
              exact List.Perm.refl _
            · simp only [List.map_cons, tree_level_withDevices]
              exact List.Sublist.refl _
        · intro h hck
          rw [removeLoop] at h
          rcases hrec : find_and_remove_device x.devices id with _ | ⟨rd, nc⟩
          · rw [hrec] at h
            rcases hl : removeLoop xs id with _ | pr
            · have hnotdev : id ∉ forestIds x.devices := ((IH x.devices hxdev).1).2 hrec
              have hckxs : containsKey id xs = false := by
                rw [containsKey_false_iff] at hck ⊢
                exact fun y hy => hck y (List.mem_cons_of_mem _ hy)
              have hnotxs : id ∉ forestIds xs := ((IH xs hxs).2).2 hl hckxs
              have hne : x.device_id ≠ id :=
                (containsKey_false_iff id (x :: xs)).mp hck x (List.mem_cons_self _ _)
              rw [forestIds_cons]
              simp only [List.mem_cons, List.mem_append]
              push_neg
              exact ⟨fun he => hne he.symm, hnotdev, hnotxs⟩
            · rw [hl] at h
              simp at h
          · rw [hrec] at h
            simp at h
    refine ⟨⟨?_, ?_⟩, hloop⟩
    · intro d f' h
      rw [find_and_remove_device] at h
      split at h
      · obtain ⟨hid, hperm, hmem⟩ := removeKeyed_eq_some h
        exact ⟨hid, hperm, (removeKeyed_sublist h).map _⟩
      · exact hloop.1 d f' h
    · intro h
      rw [find_and_remove_device] at h
      split at h
      · next hcont =>
        rw [removeKeyed_eq_none h] at hcont
        simp at hcont
      · next hcont =>
        exact hloop.2 h (by simpa using hcont)


theorem forestIds_perm_of_entries {f : List Device} {d : Device} {f' : List Device}
    (hperm : List.Perm (forestEntries f) (deviceEntries d ++ forestEntries f')) :
    List.Perm (forestIds f) (deviceIds d ++ forestIds f') := by
  rw [forestIds, forestIds, deviceIds, ← List.map_append]
  exact hperm.map Prod.fst

theorem device_id_mem_deviceIds (d : Device) : d.device_id ∈ deviceIds d := by
  rw [deviceIds, deviceEntries_head]
  simp

/-- **C5.** For any id present anywhere in a well-formed forest,
`remove_device_by_id` detaches and returns that id's entire subtree (its
children still attached): the forest's ids split exactly into the removed
subtree's ids and the remaining ids, and no removed id — the device or any
former descendant — remains anywhere in the forest.  For an id not present
anywhere it returns `None`. -/
theorem C5_remove_device_subtree (f : List Device) (id : String) (huniq : UniqueIds f) :
    (id ∉ forestIds f → remove_device_by_id f id = none) ∧
    (id ∈ forestIds f → ∃ d f', remove_device_by_id f id = some (d, f') ∧
      d.device_id = id ∧
      List.Perm (forestIds f) (deviceIds d ++ forestIds f') ∧
      (∀ x ∈ deviceIds d, x ∉ forestIds f')) := by
  obtain ⟨hsome, hnone⟩ := find_and_remove_spec f id
  constructor
  · intro hnotin
    rcases hr : remove_device_by_id f id with _ | ⟨d, f'⟩
    · rfl
    · obtain ⟨hid, hperm, _⟩ := hsome d f' hr
      exact absurd ((forestIds_perm_of_entries hperm).mem_iff.mpr
        (List.mem_append_left _ (hid ▸ device_id_mem_deviceIds d))) hnotin
  · intro hin
    rcases hr : remove_device_by_id f id with _ | ⟨d, f'⟩
    · exact absurd hin (hnone hr)
    · obtain ⟨hid, hperm, _⟩ := hsome d f' hr
      have idsperm := forestIds_perm_of_entries hperm
      have hnodup : (deviceIds d ++ forestIds f').Nodup := idsperm.nodup_iff.mp huniq
      rw [List.nodup_append] at hnodup
      exact ⟨d, f', rfl, hid, idsperm, fun x hx hx' => hnodup.2.2 hx hx'⟩

/-- Witness for C5: removing the child "B" of root "A" in a two-node
forest. -/
theorem C5_remove_device_subtree_witness :
    ("B" ∉ forestIds [Device.mk "A" none 0
        [Device.mk "B" (some "A") 1 [] none none none none none]
        none none none none none] →
      remove_device_by_id [Device.mk "A" none 0
        [Device.mk "B" (some "A") 1 [] none none none none none]
        none none none none none] "B" = none) ∧
    ("B" ∈ forestIds [Device.mk "A" none 0
        [Device.mk "B" (some "A") 1 [] none none none none none]
        none none none none none] →
      ∃ d f', remove_device_by_id [Device.mk "A" none 0
          [Device.mk "B" (some "A") 1 [] none none none none none]
          none none none none none] "B" = some (d, f') ∧
        d.device_id = "B" ∧
        List.Perm (forestIds [Device.mk "A" none 0
          [Device.mk "B" (some "A") 1 [] none none none none none]
          none none none none none]) (deviceIds d ++ forestIds f') ∧
        (∀ x ∈ deviceIds d, x ∉ forestIds f')) :=
  C5_remove_device_subtree
    [Device.mk "A" none 0 [Device.mk "B" (some "A") 1 [] none none none none none]
      none none none none none] "B"
    (by simp +decide [UniqueIds, forestIds, forestEntries_cons, deviceEntries_head,
      forestEntries])


theorem forestEntries_nil : forestEntries [] = [] := by
  simp [forestEntries]

theorem deviceEntries_childless {d : Device} (h : d.devices = []) :
    deviceEntries d = [(d.device_id, d.device_service)] := by
  rw [deviceEntries_head, h, forestEntries_nil]

theorem mem_insertKeyed {x d : Device} {f : List Device} (h : x ∈ insertKeyed d f) :
    x = d ∨ x ∈ f := by
  induction f with
  | nil =>
    rw [show insertKeyed d [] = [d] from rfl] at h
    exact Or.inl (List.mem_singleton.mp h)
  | cons y ys ih =>
    rw [insertKeyed] at h
    split at h
    · rcases List.mem_cons.mp h with rfl | h'
      · exact Or.inl rfl
      · exact Or.inr (List.mem_cons_of_mem _ h')
    · rcases List.mem_cons.mp h with rfl | h'
      · exact Or.inr (List.mem_cons_self _ _)
      · rcases ih h' with h2 | h2
        · exact Or.inl h2
        · exact Or.inr (List.mem_cons_of_mem _ h2)

theorem UniqueIds_of_entries_perm {f g : List Device}
    (h : List.Perm (forestEntries g) (forestEntries f)) (hu : UniqueIds f) :
    UniqueIds g := by
  show ((forestEntries g).map Prod.fst).Nodup
  exact ((h.map Prod.fst).nodup_iff).mpr hu

theorem RootsZero_of_level_mem {f g : List Device}
    (h : ∀ l ∈ g.map Device.tree_level, l ∈ f.map Device.tree_level)
    (hf : RootsZero f) : RootsZero g := by
  intro x hx
  rcases List.mem_map.mp (h _ (List.mem_map_of_mem _ hx)) with ⟨y, hy, hyx⟩
  exact hyx ▸ hf y hy

/-- One orphan re-parenting turn keeps ids unique and root levels zero, and
introduces no new `(id, service)` entry. -/
theorem reparentOrphan_preserves (pid oid : String) {t : List Device}
    (hu : UniqueIds t) (hr : RootsZero t) :
    UniqueIds (reparentOrphan t pid oid) ∧ RootsZero (reparentOrphan t pid oid) ∧
    (∀ e ∈ forestEntries (reparentOrphan t pid oid), e ∈ forestEntries t) := by
  rw [reparentOrphan]
  rcases hrm : removeKeyed oid t with _ | ⟨orphan, t1⟩
  · exact ⟨hu, hr, fun e he => he⟩
  · obtain ⟨hoid, hperm, hmem⟩ := removeKeyed_eq_some hrm
    have hids := forestIds_perm_of_entries hperm
    have hnodup := hids.nodup_iff.mp hu
    rw [List.nodup_append] at hnodup
    have hu1 : UniqueIds t1 := hnodup.2.1
    have hr1 : RootsZero t1 := fun x hx => hr x (hmem x hx)
    show UniqueIds (if containsKey pid t1 then updateFirst pid (attachChild orphan) t1
          else t1) ∧
      RootsZero (if containsKey pid t1 then updateFirst pid (attachChild orphan) t1
          else t1) ∧
      (∀ e ∈ forestEntries (if containsKey pid t1 then
          updateFirst pid (attachChild orphan) t1 else t1),
        e ∈ forestEntries t)
    split
    · next hck =>
      have horph : orphan.device_id ∉ forestIds t1 :=
        fun hin => hnodup.2.2 (device_id_mem_deviceIds orphan) hin
      have hperm2 := (updateFirst_attach_perm horph hck).trans hperm.symm
      refine ⟨UniqueIds_of_entries_perm hperm2 hu, ?_, fun e he => hperm2.subset he⟩
      have hmap := @updateFirst_map_tree_level pid (attachChild orphan) t1
        (fun x => attachChild_tree_level orphan x)
      exact RootsZero_of_level_mem (fun l hl => hmap ▸ hl) hr1
    · exact ⟨hu1, hr1, fun e he => hperm.mem_iff.mpr (List.mem_append_right _ he)⟩

/-- The whole orphan re-parenting `foldl` of `insert_deivice_into_tree` /
`merge_device_trees` keeps ids unique and root levels zero, introducing no
new entry. -/
theorem reparent_foldl_preserves (pid : String) (oids : List String) :
    ∀ (t : List Device), UniqueIds t → RootsZero t →
      UniqueIds (oids.foldl (fun acc oid => reparentOrphan acc pid oid) t) ∧
      RootsZero (oids.foldl (fun acc oid => reparentOrphan acc pid oid) t) ∧
      (∀ e ∈ forestEntries (oids.foldl (fun acc oid => reparentOrphan acc pid oid) t),
        e ∈ forestEntries t) := by
  induction oids with
  | nil => exact fun t hu hr => ⟨hu, hr, fun e he => he⟩
  | cons o os ih =>
    intro t hu hr
    obtain ⟨hu1, hr1, hm1⟩ := reparentOrphan_preserves pid o hu hr
    obtain ⟨hu2, hr2, hm2⟩ := ih _ hu1 hr1
    exact ⟨hu2, hr2, fun e he => hm1 e (hm2 e he)⟩

/-- `insert_deivice_into_tree` on a fresh, childless, level-0 device (what
`Device::try_from` hands over on hotplug) keeps ids unique and root levels
zero, and every entry of the result comes from the device or the old
forest. -/
theorem insert_tree_preserves {f : List Device} {d : Device}
    (hdev : d.devices = []) (hlvl : d.tree_level = 0)
    (hfresh : d.device_id ∉ forestIds f) (hu : UniqueIds f) (hr : RootsZero f) :
    UniqueIds (insert_deivice_into_tree f d) ∧ RootsZero (insert_deivice_into_tree f d) ∧
    (∀ e ∈ forestEntries (insert_deivice_into_tree f d),
      e ∈ deviceEntries d ++ forestEntries f) := by
  have hck : containsKey d.device_id f = false := by
    rw [containsKey_false_iff]
    intro x hx hid
    exact hfresh (hid ▸ mem_forestIds_of_mem hx)
  have hident : (deviceEntries d).map Prod.fst = [d.device_id] := by
    rw [deviceEntries_childless hdev]
    rfl
  have hroot : ∀ oids : List String,
      UniqueIds (oids.foldl (fun acc oid => reparentOrphan acc d.device_id oid)
        (insertKeyed d f)) ∧
      RootsZero (oids.foldl (fun acc oid => reparentOrphan acc d.device_id oid)
        (insertKeyed d f)) ∧
      (∀ e ∈ forestEntries (oids.foldl (fun acc oid => reparentOrphan acc d.device_id oid)
        (insertKeyed d f)), e ∈ deviceEntries d ++ forestEntries f) := by
    intro oids
    have hent := insertKeyed_entries hck
    have hu1 : UniqueIds (insertKeyed d f) := by
      show ((forestEntries (insertKeyed d f)).map Prod.fst).Nodup
      rw [hent, List.map_append, hident, List.nodup_append]
      refine ⟨hu, List.nodup_singleton _, ?_⟩
      intro a ha hb
      rw [List.mem_singleton] at hb
      exact hfresh (hb ▸ ha)
    have hr1 : RootsZero (insertKeyed d f) := by
      intro x hx
      rcases mem_insertKeyed hx with rfl | hx'
      · exact hlvl
      · exact hr x hx'
    obtain ⟨hu2, hr2, hm2⟩ := reparent_foldl_preserves d.device_id oids _ hu1 hr1
    refine ⟨hu2, hr2, fun e he => ?_⟩
    have hin := hm2 e he
    rw [hent] at hin
    rcases List.mem_append.mp hin with h1 | h1
    · exact List.mem_append_right _ h1
    · exact List.mem_append_left _ h1
  rcases hp : d.parent_id with _ | pid
  · rw [insert_deivice_into_tree]
    simp only [hp]
    exact hroot _
  · rcases hfp : find_parent_insert f pid d with _ | t
    · rw [insert_deivice_into_tree]
      simp only [hp, hfp]
      exact hroot _
    · rw [insert_deivice_into_tree]
      simp only [hp, hfp]
      obtain ⟨hperm, hlev⟩ := find_parent_insert_spec f pid d t hfp hfresh
      refine ⟨?_, ?_, fun e he => hperm.subset he⟩
      · show ((forestEntries t).map Prod.fst).Nodup
        have h2 := hperm.map Prod.fst
        rw [List.map_append, hident] at h2
        refine h2.nodup_iff.mpr ?_
        rw [List.singleton_append, List.nodup_cons]
        exact ⟨hfresh, hu⟩
      · exact RootsZero_of_level_mem (fun l hl => hlev ▸ hl) hr

/-- `remove_device_by_id`, keeping the forest the search left behind, keeps
ids unique and root levels zero and introduces no new entry. -/
theorem remove_preserves {f : List Device} (id : String)
    (hu : UniqueIds f) (hr : RootsZero f) :
    UniqueIds (applyOp f (.remove id)) ∧ RootsZero (applyOp f (.remove id)) ∧
    (∀ e ∈ forestEntries (applyOp f (.remove id)), e ∈ forestEntries f) := by
  rw [applyOp]
  rcases hrm : remove_device_by_id f id with _ | ⟨d, f'⟩
  · simp only [hrm]
    exact ⟨hu, hr, fun e he => he⟩
  · simp only [hrm]
    obtain ⟨hid, hperm, hsub⟩ := (find_and_remove_spec f id).1 d f' hrm
    have hids := forestIds_perm_of_entries hperm
    have hnodup := hids.nodup_iff.mp hu
    rw [List.nodup_append] at hnodup
    refine ⟨hnodup.2.1, ?_, fun e he => hperm.mem_iff.mpr (List.mem_append_right _ he)⟩
    exact RootsZero_of_level_mem (fun l hl => hsub.subset hl) hr

/-- **C1 (amended).**  Over every valid hotplug sequence (each inserted
device fresh out of `Device::try_from`: childless, level 0, id not yet
tracked) the forest keeps all ids unique — so, the map structure being a
forest by construction, it stays acyclic — and every root keeps
`tree_level` 0.  (The full per-edge level law of the original claim fails:
descendants of a re-parented orphan keep their stale `tree_level`s, see the
counterexample.) -/
theorem C1_valid_ops_preserve_unique_ids_and_root_levels
    (f : List Device) (ops : List TrackerOp) (hv : ValidOps f ops) :
    UniqueIds f → RootsZero f →
    UniqueIds (applyOps f ops) ∧ RootsZero (applyOps f ops) := by
  induction hv with
  | nil => exact fun hu hr => ⟨hu, hr⟩
  | insert hdev hlvl hfresh hval ih =>
    intro hu hr
    obtain ⟨hu2, hr2, _⟩ := insert_tree_preserves hdev hlvl hfresh hu hr
    exact ih hu2 hr2
  | remove hval ih =>
    intro hu hr
    obtain ⟨hu2, hr2, _⟩ := remove_preserves _ hu hr
    exact ih hu2 hr2

/-- Witness for C1: inserting one fresh root device into the empty
tracker. -/
theorem C1_valid_ops_preserve_unique_ids_and_root_levels_witness :
    UniqueIds (applyOps []
      [TrackerOp.insert (Device.mk "A" none 0 [] none none none none none)]) ∧
    RootsZero (applyOps []
      [TrackerOp.insert (Device.mk "A" none 0 [] none none none none none)]) :=
  C1_valid_ops_preserve_unique_ids_and_root_levels []
    [TrackerOp.insert (Device.mk "A" none 0 [] none none none none none)]
    (ValidOps.insert rfl rfl
      (by rw [forestIds_nil]; exact List.not_mem_nil _) ValidOps.nil)
    (by show (forestIds ([] : List Device)).Nodup
        rw [forestIds_nil]
        exact List.nodup_nil)
    (fun d hd => absurd hd (List.not_mem_nil d))


theorem device_id_withDevices (d : Device) (ds : List Device) :
    (d.withDevices ds).device_id = d.device_id := by
  cases d
  rfl

theorem device_service_withDevices (d : Device) (ds : List Device) :
    (d.withDevices ds).device_service = d.device_service := by
  cases d
  rfl

theorem insertKeyed_subset {d : Device} {f : List Device} :
    ∀ e ∈ forestEntries (insertKeyed d f), e ∈ deviceEntries d ++ forestEntries f := by
  induction f with
  | nil =>
    intro e he
    rw [show insertKeyed d [] = [d] from rfl, forestEntries_cons, forestEntries_nil,
      List.append_nil] at he
    exact List.mem_append_left _ he
  | cons x xs ih =>
    intro e he
    rw [insertKeyed] at he
    split at he
    · rw [forestEntries_cons] at he
      rcases List.mem_append.mp he with h1 | h1
      · exact List.mem_append_left _ h1
      · exact List.mem_append_right _ (by
          rw [forestEntries_cons]
          exact List.mem_append_right _ h1)
    · rw [forestEntries_cons] at he
      rcases List.mem_append.mp he with h1 | h1
      · exact List.mem_append_right _ (by
          rw [forestEntries_cons]
          exact List.mem_append_left _ h1)
      · rcases List.mem_append.mp (ih e h1) with h2 | h2
        · exact List.mem_append_left _ h2
        · exact List.mem_append_right _ (by
            rw [forestEntries_cons]
            exact List.mem_append_right _ h2)

theorem updateFirst_insert_subset {pid : String} {c : Device} {lvlOf : Device → Nat} :
    ∀ {f : List Device} (e : String × Option String),
      e ∈ forestEntries (updateFirst pid
        (fun p => p.withDevices (insertKeyed (c.withTreeLevel (lvlOf p)) p.devices)) f) →
      e ∈ deviceEntries c ++ forestEntries f := by
  intro f
  induction f with
  | nil =>
    intro e he
    rw [updateFirst, forestEntries_nil] at he
    cases he
  | cons x xs ih =>
    intro e he
    rw [updateFirst] at he
    split at he
    · simp only [forestEntries_cons, deviceEntries_withDevices] at he
      rcases List.mem_append.mp he with h1 | h1
      · rcases List.mem_cons.mp h1 with rfl | h2
        · exact List.mem_append_right _ (by
            rw [forestEntries_cons, deviceEntries_head]
            exact List.mem_append_left _ (List.mem_cons_self _ _))
        · rcases List.mem_append.mp (insertKeyed_subset e h2) with h3 | h3
          · rw [deviceEntries_withTreeLevel] at h3
            exact List.mem_append_left _ h3
          · exact List.mem_append_right _ (by
              rw [forestEntries_cons, deviceEntries_head]
              exact List.mem_append_left _ (List.mem_cons_of_mem _ h3))
      · exact List.mem_append_right _ (by
          rw [forestEntries_cons]
          exact List.mem_append_right _ h1)
    · rw [forestEntries_cons] at he
      rcases List.mem_append.mp he with h1 | h1
      · exact List.mem_append_right _ (by
          rw [forestEntries_cons]
          exact List.mem_append_left _ h1)
      · rcases List.mem_append.mp (ih e h1) with h2 | h2
        · exact List.mem_append_left _ h2
        · exact List.mem_append_right _ (by
            rw [forestEntries_cons]
            exact List.mem_append_right _ h2)

theorem updateFirst_attach_subset {pid : String} {c : Device} {f : List Device} :
    ∀ e ∈ forestEntries (updateFirst pid (attachChild c) f),
      e ∈ deviceEntries c ++ forestEntries f := by
  intro e he
  exact @updateFirst_insert_subset pid c (fun p => p.tree_level + 1) f e he

theorem find_parent_insert_subset (f : List Device) (pid : String) (c : Device)
    (f' : List Device) (h : find_parent_insert f pid c = some f') :
    ∀ e ∈ forestEntries f', e ∈ deviceEntries c ++ forestEntries f := by
  suffices H : ∀ n (f : List Device), sizeOf f ≤ n → ∀ f',
      (find_parent_insert f pid c = some f' →
        ∀ e ∈ forestEntries f', e ∈ deviceEntries c ++ forestEntries f) ∧
      (findParentLoop f pid c = some f' →
        ∀ e ∈ forestEntries f', e ∈ deviceEntries c ++ forestEntries f) by
    exact (H (sizeOf f) f le_rfl f').1 h
  intro n
  induction n with
  | zero =>
    intro f hf
    exfalso
    rcases f with _ | ⟨d, ds⟩ <;> simp at hf
  | succ n IH =>
    intro f hsz f'
    have hloop : findParentLoop f pid c = some f' →
        ∀ e ∈ forestEntries f', e ∈ deviceEntries c ++ forestEntries f := by
      rcases f with _ | ⟨d, ds⟩
      · intro h
        rw [findParentLoop] at h
        simp at h
      · intro h e he
        obtain ⟨hd, hds⟩ := sizeOf_devices_le hsz
        rw [findParentLoop] at h
        rcases hrec : find_parent_insert d.devices pid c with _ | nc
        · rw [hrec] at h
          rcases hl : findParentLoop ds pid c with _ | rest
          · rw [hl] at h
            simp at h
          · rw [hl] at h
            simp only [Option.map_some'] at h
            have hf2 : f' = d :: rest := (Option.some.inj h).symm
            subst hf2
            rw [forestEntries_cons] at he
            rcases List.mem_append.mp he with h1 | h1
            · exact List.mem_append_right _ (by
                rw [forestEntries_cons]
                exact List.mem_append_left _ h1)
            · rcases List.mem_append.mp ((IH ds hds rest).2 hl e h1) with h2 | h2
              · exact List.mem_append_left _ h2
              · exact List.mem_append_right _ (by
                  rw [forestEntries_cons]
                  exact List.mem_append_right _ h2)
        · rw [hrec] at h
          have hf2 : f' = d.withDevices nc :: ds := (Option.some.inj h).symm
          subst hf2
          simp only [forestEntries_cons, deviceEntries_withDevices] at he
          rcases List.mem_append.mp he with h1 | h1
          · rcases List.mem_cons.mp h1 with rfl | h2
            · exact List.mem_append_right _ (by
                rw [forestEntries_cons, deviceEntries_head]
                exact List.mem_append_left _ (List.mem_cons_self _ _))
            · rcases List.mem_append.mp ((IH d.devices hd nc).1 hrec e h2) with h3 | h3
              · exact List.mem_append_left _ h3
              · exact List.mem_append_right _ (by
                  rw [forestEntries_cons, deviceEntries_head]
                  exact List.mem_append_left _ (List.mem_cons_of_mem _ h3))
          · exact List.mem_append_right _ (by
              rw [forestEntries_cons]
              exact List.mem_append_right _ h1)
    constructor
    · intro h e he
      rw [find_parent_insert] at h
      split at h
      · have hf2 : f' = updateFirst pid (attachChild c) f := (Option.some.inj h).symm
        subst hf2
        exact updateFirst_attach_subset e he
      · exact hloop h e he
    · exact hloop

theorem reparentOrphan_subset (pid oid : String) (t : List Device) :
    ∀ e ∈ forestEntries (reparentOrphan t pid oid), e ∈ forestEntries t := by
  intro e he
  rcases hrm : removeKeyed oid t with _ | ⟨orphan, t1⟩
  · rw [reparentOrphan, hrm] at he
    exact he
  · rw [reparentOrphan, hrm] at he
    have he2 : e ∈ forestEntries (if containsKey pid t1 then
        updateFirst pid (attachChild orphan) t1 else t1) := he
    obtain ⟨hoid, hperm, hmem⟩ := removeKeyed_eq_some hrm
    by_cases hck : containsKey pid t1 = true
    · rw [if_pos hck] at he2
      rcases List.mem_append.mp (updateFirst_attach_subset e he2) with h1 | h1
      · exact hperm.mem_iff.mpr (List.mem_append_left _ h1)
      · exact hperm.mem_iff.mpr (List.mem_append_right _ h1)
    · rw [if_neg hck] at he2
      exact hperm.mem_iff.mpr (List.mem_append_right _ he2)

theorem reparent_foldl_subset (pid : String) (oids : List String) :
    ∀ (t : List Device) (e : String × Option String),
      e ∈ forestEntries (oids.foldl (fun acc oid => reparentOrphan acc pid oid) t) →
      e ∈ forestEntries t := by
  induction oids with
  | nil => exact fun t e he => he
  | cons o os ih =>
    intro t e he
    exact reparentOrphan_subset pid o t e (ih _ e he)

theorem insert_tree_subset (f : List Device) (d : Device) :
    ∀ e ∈ forestEntries (insert_deivice_into_tree f d),
      e ∈ deviceEntries d ++ forestEntries f := by
  intro e he
  rcases hp : d.parent_id with _ | pid
  · rw [insert_deivice_into_tree] at he
    simp only [hp] at he
    exact insertKeyed_subset e (reparent_foldl_subset _ _ _ e he)
  · rcases hfp : find_parent_insert f pid d with _ | t
    · rw [insert_deivice_into_tree] at he
      simp only [hp, hfp] at he
      exact insertKeyed_subset e (reparent_foldl_subset _ _ _ e he)
    · rw [insert_deivice_into_tree] at he
      simp only [hp, hfp] at he
      exact find_parent_insert_subset f pid d t hfp e he

theorem mergeInsertOne_subset (base : List Device) (d : Device) :
    ∀ e ∈ forestEntries (mergeInsertOne base d),
      e ∈ deviceEntries d ++ forestEntries base := by
  intro e he
  rcases hp : d.parent_id with _ | pid
  · rw [mergeInsertOne] at he
    simp only [hp] at he
    have h1 := insertKeyed_subset e (reparent_foldl_subset _ _ _ e he)
    rw [deviceEntries_withTreeLevel] at h1
    exact h1
  · rcases hfp : find_parent_insert base pid d with _ | t
    · rw [mergeInsertOne] at he
      simp only [hp, hfp] at he
      have h1 := insertKeyed_subset e (reparent_foldl_subset _ _ _ e he)
      rw [deviceEntries_withTreeLevel] at h1
      exact h1
    · rw [mergeInsertOne] at he
      simp only [hp, hfp] at he
      exact find_parent_insert_subset base pid d t hfp e he

theorem place_subset (fuel : Nat) :
    (∀ pid cid devices device_ids parent_ids level devices',
      place_child_in_parent fuel pid cid devices device_ids parent_ids level =
        .ok devices' →
      ∀ e ∈ forestEntries devices', e ∈ forestEntries devices) ∧
    (∀ cid devices device_ids parent_ids level devices',
      placeWhile fuel cid devices device_ids parent_ids level = .ok devices' →
      ∀ e ∈ forestEntries devices', e ∈ forestEntries devices) := by
  induction fuel with
  | zero =>
    constructor
    · intro pid cid devices device_ids parent_ids level devices' h
      rw [place_child_in_parent] at h
      exact Except.noConfusion h
    · intro cid devices device_ids parent_ids level devices' h
      rw [placeWhile] at h
      exact Except.noConfusion h
  | succ n ih =>
    constructor
    · intro pid cid devices device_ids parent_ids level devices' h e he
      rw [place_child_in_parent] at h
      split at h
      · split at h
        · exact Except.noConfusion h
        · next devices1 hw =>
          split at h
          · exact Except.noConfusion h
          · next child devices2 hrm =>
            split at h
            · next hck =>
              have hdv := (Except.ok.inj h).symm
              subst hdv
              obtain ⟨hcid, hperm, hmem⟩ := removeKeyed_eq_some hrm
              have h1 := @updateFirst_insert_subset pid child
                (fun _ => level + 1) devices2 e he
              have h2 : e ∈ forestEntries devices1 := by
                rcases List.mem_append.mp h1 with h3 | h3
                · exact hperm.mem_iff.mpr (List.mem_append_left _ h3)
                · exact hperm.mem_iff.mpr (List.mem_append_right _ h3)
              exact ih.2 cid devices device_ids parent_ids level devices1 hw e h2
            · exact Except.noConfusion h
      · exact (Except.ok.inj h) ▸ he
    · intro cid devices device_ids parent_ids level devices' h e he
      rw [placeWhile] at h
      split at h
      · exact (Except.ok.inj h) ▸ he
      · next pid2 cid2 hfind =>
        split at h
        · exact Except.noConfusion h
        · next devices1 hplace =>
          exact ih.1 pid2 cid2 devices device_ids parent_ids (level + 1) devices1 hplace e
            (ih.2 cid devices1 device_ids parent_ids level devices' h e he)

theorem place_foldlM_subset (fuel : Nat) (device_ids : List String)
    (all_pairs : List (String × String)) :
    ∀ (l : List (String × String)) (devices devices' : List Device),
      l.foldlM (fun devs pc =>
        place_child_in_parent fuel pc.1 pc.2 devs device_ids all_pairs 0) devices =
        .ok devices' →
      ∀ e ∈ forestEntries devices', e ∈ forestEntries devices := by
  intro l
  induction l with
  | nil =>
    intro devices devices' h e he
    have h2 : (Except.ok devices : Except PlacePanic (List Device)) = .ok devices' := h
    exact (Except.ok.inj h2) ▸ he
  | cons pc rest ih =>
    intro devices devices' h e he
    rw [List.foldlM_cons] at h
    rcases hstep : place_child_in_parent fuel pc.1 pc.2 devices device_ids all_pairs 0
      with err | d1
    · rw [hstep] at h
      exact Except.noConfusion
        (show (Except.error err : Except PlacePanic (List Device)) = .ok devices' from h)
    · rw [hstep] at h
      have h2 : rest.foldlM (fun devs pc =>
          place_child_in_parent fuel pc.1 pc.2 devs device_ids all_pairs 0) d1 =
          .ok devices' := h
      exact (place_subset fuel).1 pc.1 pc.2 devices device_ids all_pairs 0 d1 hstep e
        (ih d1 devices' h2 e he)

theorem convert_subset (fuel : Nat) (devices out : List Device)
    (h : convert_devices_into_tree fuel devices = .ok out) :
    ∀ e ∈ forestEntries out, e ∈ forestEntries devices := by
  intro e he
  simp only [convert_devices_into_tree] at h
  exact place_foldlM_subset fuel _ _ _ devices out h e he

theorem mem_collect_devices {x : Device} :
    ∀ {l : List Device}, x ∈ collect_devices l →
      x.devices = [] ∧ (x.device_id, x.device_service) ∈ forestEntries l := by
  suffices H : ∀ n (l : List Device), sizeOf l ≤ n → x ∈ collect_devices l →
      x.devices = [] ∧ (x.device_id, x.device_service) ∈ forestEntries l by
    exact fun {l} hx => H (sizeOf l) l le_rfl hx
  intro n
  induction n with
  | zero =>
    intro l hl
    exfalso
    rcases l with _ | ⟨d, ds⟩ <;> simp at hl
  | succ n IH =>
    intro l hsz hx
    rcases l with _ | ⟨d, rest⟩
    · rw [show collect_devices [] = [] from by rw [collect_devices]] at hx
      cases hx
    · obtain ⟨hd, hrest⟩ := sizeOf_devices_le hsz
      rw [collect_devices] at hx
      rcases List.mem_cons.mp hx with rfl | hx'
      · constructor
        · cases d
          rfl
        · rw [forestEntries_cons, deviceEntries_head, device_id_withDevices,
            device_service_withDevices]
          exact List.mem_append_left _ (List.mem_cons_self _ _)
      · rcases List.mem_append.mp hx' with h1 | h1
        · obtain ⟨ha, hb⟩ := IH d.devices hd h1
          exact ⟨ha, by
            rw [forestEntries_cons, deviceEntries_head]
            exact List.mem_append_left _ (List.mem_cons_of_mem _ hb)⟩
        · obtain ⟨ha, hb⟩ := IH rest hrest h1
          exact ⟨ha, by
            rw [forestEntries_cons]
            exact List.mem_append_right _ hb⟩

theorem NoHub_nil : NoHub [] := by
  intro e he
  rw [forestEntries_nil] at he
  cases he

theorem get_listed_flat_nohub :
    ∀ (l : List Device), (∀ d ∈ l, d.devices = []) → ∀ (m : List Device), NoHub m →
      NoHub (l.foldl (fun m d =>
        if device_filter_function d then m else insertKeyed d m) m) := by
  intro l
  induction l with
  | nil => exact fun _ m hm => hm
  | cons d rest ih =>
    intro hcl m hm
    have hrest := fun x hx => hcl x (List.mem_cons_of_mem _ hx)
    rw [List.foldl_cons]
    by_cases hf : device_filter_function d = true
    · rw [if_pos hf]
      exact ih hrest m hm
    · rw [if_neg hf]
      refine ih hrest _ (AllEntries_insertKeyed hm ?_)
      intro e hde
      rw [deviceEntries_childless (hcl d (List.mem_cons_self _ _)),
        List.mem_singleton] at hde
      subst hde
      show serviceIsHub d.device_service = false
      simpa using hf

theorem get_listed_devices_nohub {fuel : Nat} {enumerated out : List Device}
    (henum : ∀ d ∈ enumerated, d.devices = [])
    (h : get_listed_devices fuel enumerated = .ok out) : NoHub out := by
  simp only [get_listed_devices] at h
  exact AllEntries_anti (fun e he => convert_subset fuel _ out h e he)
    (get_listed_flat_nohub enumerated henum [] NoHub_nil)

theorem foldl_mergeInsertOne_nohub :
    ∀ (l : List Device),
      (∀ x ∈ l, serviceIsHub x.device_service = false ∧ x.devices = []) →
      ∀ (base : List Device), NoHub base → NoHub (l.foldl mergeInsertOne base) := by
  intro l
  induction l with
  | nil => exact fun _ base hb => hb
  | cons x rest ih =>
    intro hl base hb
    obtain ⟨hsvc, hdev⟩ := hl x (List.mem_cons_self _ _)
    rw [List.foldl_cons]
    refine ih (fun y hy => hl y (List.mem_cons_of_mem _ hy)) _ ?_
    intro e he
    rcases List.mem_append.mp (mergeInsertOne_subset base x e he) with h1 | h1
    · rw [deviceEntries_childless hdev, List.mem_singleton] at h1
      subst h1
      exact hsvc
    · exact hb e h1

theorem merge_device_trees_nohub {base tree : List Device}
    (hb : NoHub base) (ht : NoHub tree) : NoHub (merge_device_trees base tree) := by
  rw [merge_device_trees]
  refine foldl_mergeInsertOne_nohub (collect_devices tree) ?_ base hb
  intro x hx
  obtain ⟨hdev, hmem⟩ := mem_collect_devices hx
  exact ⟨ht _ hmem, hdev⟩

theorem load_tracker_go_nohub (fuel : Nat) :
    ∀ (l : List (List Device)), (∀ s ∈ l, ∀ d ∈ s, d.devices = []) →
      ∀ (acc : List Device), NoHub acc → ∀ (out : List Device),
      l.foldlM (fun merged s => (get_listed_devices fuel s).map
        (merge_device_trees merged)) acc = .ok out → NoHub out := by
  intro l
  induction l with
  | nil =>
    intro _ acc hacc out h
    have h2 : (Except.ok acc : Except PlacePanic (List Device)) = .ok out := h
    exact (Except.ok.inj h2) ▸ hacc
  | cons s rest ih =>
    intro hcl acc hacc out h
    rw [List.foldlM_cons] at h
    rcases hg : get_listed_devices fuel s with err | listed
    · rw [hg] at h
      exact absurd
        (show (Except.error err : Except PlacePanic (List Device)) = .ok out from h)
        (fun hc => Except.noConfusion hc)
    · rw [hg] at h
      have h2 : rest.foldlM (fun merged s => (get_listed_devices fuel s).map
          (merge_device_trees merged)) (merge_device_trees acc listed) = .ok out := h
      exact ih (fun t ht d hd => hcl t (List.mem_cons_of_mem _ ht) d hd)
        (merge_device_trees acc listed)
        (merge_device_trees_nohub hacc
          (get_listed_devices_nohub (hcl s (List.mem_cons_self _ _)) hg))
        out h2

/-- **C4.** With every OS class enumeration yielding fresh childless
devices (as `Device::try_from` does): a successful `load()` produces a
Topology with no hub-service device anywhere; a successful
`insert_device_by_id` on a hub-free Topology leaves it hub-free; a hub
device (service name `usbhub` or `usbhub3`) makes `insert_device_by_id`
return the hub-filtered error `DeviceFilteredNotUsb`, which is distinct
from every OS-call failure (`Win32Error`). -/
theorem C4_no_hub_in_topology (fuel : Nat) (class_enumerations : List (List Device))
    (henum : ∀ s ∈ class_enumerations, ∀ d ∈ s, d.devices = []) :
    (∀ tracker, load_tracker fuel class_enumerations = .ok tracker → NoHub tracker) ∧
    (∀ (tracker tracker' : List Device) (d : Device), NoHub tracker → d.devices = [] →
      insert_device_by_id tracker (.ok d) = .ok tracker' → NoHub tracker') ∧
    (∀ (tracker : List Device) (d : Device), serviceIsHub d.device_service = true →
      insert_device_by_id tracker (.ok d) = .error .DeviceFilteredNotUsb) ∧
    (∀ e : Win32Error,
      (DeviceInsertionError.DeviceFilteredNotUsb : DeviceInsertionError) ≠
        .Win32Error e) := by
  refine ⟨?_, ?_, ?_, ?_⟩
  · intro tracker h
    rw [load_tracker] at h
    exact load_tracker_go_nohub fuel class_enumerations henum [] NoHub_nil tracker h
  · intro tracker tracker' d htr hdev h
    have h2 : (if device_filter_function d then
        (Except.error DeviceInsertionError.DeviceFilteredNotUsb :
          Except DeviceInsertionError (List Device))
        else .ok (insert_deivice_into_tree tracker d)) = .ok tracker' := h
    by_cases hf : device_filter_function d = true
    · rw [if_pos hf] at h2
      exact Except.noConfusion h2
    · rw [if_neg hf] at h2
      have ht2 : tracker' = insert_deivice_into_tree tracker d := (Except.ok.inj h2).symm
      subst ht2
      intro e he
      rcases List.mem_append.mp (insert_tree_subset tracker d e he) with h1 | h1
      · rw [deviceEntries_childless hdev, List.mem_singleton] at h1
        subst h1
        show serviceIsHub d.device_service = false
        simpa using hf
      · exact htr e h1
  · intro tracker d hsvc
    show (if device_filter_function d then
        (Except.error DeviceInsertionError.DeviceFilteredNotUsb :
          Except DeviceInsertionError (List Device))
        else .ok (insert_deivice_into_tree tracker d)) = .error .DeviceFilteredNotUsb
    rw [if_pos (show device_filter_function d = true from hsvc)]
  · intro e hc
    exact DeviceInsertionError.noConfusion hc

/-- Witness for C4: one class enumeration returning a single childless
mass-storage device. -/
theorem C4_no_hub_in_topology_witness :
    (∀ tracker, load_tracker 4
        [[Device.mk "A" none 0 [] (some "usbstor") none none none none]] =
        .ok tracker → NoHub tracker) ∧
    (∀ (tracker tracker' : List Device) (d : Device), NoHub tracker → d.devices = [] →
      insert_device_by_id tracker (.ok d) = .ok tracker' → NoHub tracker') ∧
    (∀ (tracker : List Device) (d : Device), serviceIsHub d.device_service = true →
      insert_device_by_id tracker (.ok d) = .error .DeviceFilteredNotUsb) ∧
    (∀ e : Win32Error,
      (DeviceInsertionError.DeviceFilteredNotUsb : DeviceInsertionError) ≠
        .Win32Error e) :=
  C4_no_hub_in_topology 4
    [[Device.mk "A" none 0 [] (some "usbstor") none none none none]]
    (by
      intro s hs d hd
      rw [List.mem_singleton] at hs
      subst hs
      rw [List.mem_singleton] at hd
      subst hd
      rfl)

end CompGate





